import Mathlib

/-!
The package `expiredmap`: a map whose entries expire.

A shallow embedding of `expired_map.go` and proofs about its operations.

Modelling decisions:

* `sync.Map` is an association list with pairwise distinct keys (`AList`).  `Load`, `Store` and
  `Delete` are `AList.lookup`, `AList.insert` and `AList.erase`; `Range` walks the entries present
  when it starts, each key once.  The order of `Range` is unspecified in Go; here it is the order
  of the list, and since the theorems hold for every list they hold for every order.
* Only `Set` stores into the map, and it stores a non-nil `*expiredMapItem`, so the type-assertion
  and nil checks of `Get`, `TTL`, `HandleForeach` and the sweeper always succeed: the map is typed
  by items and these branches have no counterpart.
* `time.Time` and `time.Duration` are integers (nanoseconds); `Add`, `Sub` and `After` of the
  standard library are `+`, `-` and `>`.  Every operation takes the reading of `time.Now()` as an
  argument.  A tick of the sweeper uses one reading for all the entries it visits.
  `HandleForeach` runs code of the caller between two visits, so it is given one reading per
  visited key (`clock`), and its callback may change the map as well as the state of the caller.
* `atomic.Int64` is an integer; `Inc` and `Dec` add and subtract one.  `Inc` only happens below
  `capacity`, so it never wraps; `Dec` is not wrapped either, the counter would have to reach
  `-2^63` first, one decrement at a time.
* The operations are sequential: one call runs to its end before the next one starts.
* The sweeper goroutine is the flag `running`; the environment may fire `tick` while it is set.
-/

namespace expiredmap

/-- An instant: nanoseconds on the clock read by `time.Now()`. -/
abbrev Time := Int

/-- A span of time in nanoseconds (`time.Duration`). -/
abbrev Duration := Int

/-- The struct `expiredMapItem[TK, TV]`. -/
structure expiredMapItem (TK TV : Type) where
  key : TK
  value : TV
  expireAt : Time
deriving DecidableEq, Repr

/-- The struct `ExpiredMap[TK, TV]`; `running` stands for the sweeper goroutine that listens on
the channel `stop`. -/
structure ExpiredMap (TK TV : Type) where
  m : AList (fun _ : TK => expiredMapItem TK TV)
  expireInterval : Duration
  capacity : Int
  len : Int
  running : Bool

set_option linter.unusedSectionVars false

variable {TK TV : Type} [DecidableEq TK]

/-- The constructor `NewExpiredMap`: an empty map, counter at zero, sweeper started. -/
def NewExpiredMap (capacity : Int) (expireInterval : Duration) : ExpiredMap TK TV :=
  { m := ∅, expireInterval := expireInterval, capacity := capacity, len := 0, running := true }

/-- The method `Size`: the value of the counter. -/
def ExpiredMap.Size (em : ExpiredMap TK TV) : Int :=
  em.len

/-- The method `Delete`: remove the key from the map, then decrement the counter. -/
def ExpiredMap.Delete (em : ExpiredMap TK TV) (key : TK) : ExpiredMap TK TV :=
  { em with m := em.m.erase key, len := em.len - 1 }

/-- The method `Set` called when the clock reads `now`: the returned flag and the state after. -/
def ExpiredMap.Set (em : ExpiredMap TK TV) (key : TK) (value : TV) (ttl : Duration) (now : Time) :
    Bool × ExpiredMap TK TV :=
  if em.Size ≥ em.capacity then
    (false, em)
  else
    let v : expiredMapItem TK TV := { key := key, value := value, expireAt := now + ttl }
    (true, { em with m := em.m.insert key v, len := em.len + 1 })

/-- The method `Get` called when the clock reads `now`: the pair `(value, ok)` and the state
after.  The zero value of `TV` is `default`. -/
def ExpiredMap.Get [Inhabited TV] (em : ExpiredMap TK TV) (key : TK) (now : Time) :
    (TV × Bool) × ExpiredMap TK TV :=
  match em.m.lookup key with
  | none => ((default, false), em)
  | some v2 =>
    if now > v2.expireAt then
      ((default, false), em.Delete key)
    else
      ((v2.value, true), em)

/-- The method `TTL` called when the clock reads `now`: the returned duration and the state
after. -/
def ExpiredMap.TTL (em : ExpiredMap TK TV) (key : TK) (now : Time) :
    Duration × ExpiredMap TK TV :=
  match em.m.lookup key with
  | none => (-2, em)
  | some v2 =>
    if now > v2.expireAt then
      (-1, em.Delete key)
    else
      (v2.expireAt - now, em)

/-- The method `sync.Map.Range` over the entries present at its start: `f` is called on each
entry in turn and the walk stops as soon as `f` answers `false`. -/
def Range {σ : Type} (f : TK → expiredMapItem TK TV → σ → Bool × σ) :
    List (Sigma fun _ : TK => expiredMapItem TK TV) → σ → σ
  | [], st => st
  | e :: es, st =>
    match f e.1 e.2 st with
    | (true, st1) => Range f es st1
    | (false, st1) => st1

/-- The function passed to `Range` by the sweeper on a tick. -/
def sweepVisit (now : Time) (key : TK) (v : expiredMapItem TK TV) (em : ExpiredMap TK TV) :
    Bool × ExpiredMap TK TV :=
  if now > v.expireAt then (true, em.Delete key) else (true, em)

/-- One pass of the `ticker.C` case in `start`, at clock reading `now`. -/
def ExpiredMap.tick (em : ExpiredMap TK TV) (now : Time) : ExpiredMap TK TV :=
  Range (sweepVisit now) em.m.entries em

/-- The method `sync.Map.Range` when the function `f` may itself store and delete keys of the
map it walks.  The keys are those present at the start, each visited once; `load` reads the map
out of the threaded state, and a key is passed to `f` with the item it has when its turn comes,
or skipped when it is no longer stored.  Keys stored during the walk are not visited.  `Range` is
this walk for an `f` that only deletes the key it is visiting. -/
def RangeLoad {σ : Type} (load : σ → TK → Option (expiredMapItem TK TV))
    (f : TK → expiredMapItem TK TV → σ → Bool × σ) : List TK → σ → σ
  | [], st => st
  | k :: ks, st =>
    match load st k with
    | none => RangeLoad load f ks st
    | some v =>
      match f k v st with
      | (true, st1) => RangeLoad load f ks st1
      | (false, st1) => st1

/-- The function passed to `Range` by `HandleForeach`.  The state it threads is the map together
with the state `σ` of the caller; `clock key` is the reading of `time.Now()` at the visit of
`key`.  The callback is a closure of the caller: it gets the key and the value and may change
both the map and the state of the caller. -/
def foreachVisit {σ : Type} (clock : TK → Time)
    (callback : TK → TV → ExpiredMap TK TV × σ → ExpiredMap TK TV × σ) (key : TK)
    (v : expiredMapItem TK TV) (st : ExpiredMap TK TV × σ) : Bool × (ExpiredMap TK TV × σ) :=
  if clock key > v.expireAt then
    (true, (st.1.Delete key, st.2))
  else
    (true, callback key v.value st)

/-- The method `HandleForeach`.  The clock is read at every visit (`clock key` at the visit of
`key`), after the callbacks of the earlier visits have returned; the state of the caller starts
at `c`. -/
def ExpiredMap.HandleForeach {σ : Type} (em : ExpiredMap TK TV) (clock : TK → Time)
    (callback : TK → TV → ExpiredMap TK TV × σ → ExpiredMap TK TV × σ) (c : σ) :
    ExpiredMap TK TV × σ :=
  RangeLoad (fun st k => st.1.m.lookup k) (foreachVisit clock callback) em.m.keys (em, c)

/-- A callback that does not call the map: it only works on the state of the caller. -/
def observer {σ : Type} (cb : TK → TV → σ → σ) :
    TK → TV → ExpiredMap TK TV × σ → ExpiredMap TK TV × σ :=
  fun key value st => (st.1, cb key value st.2)

/-- The function passed to `Range` by `Close`. -/
def closeVisit (key : TK) (_v : expiredMapItem TK TV) (em : ExpiredMap TK TV) :
    Bool × ExpiredMap TK TV :=
  (true, em.Delete key)

/-- The method `Close`.  The send on `stop` is received by the sweeper, which then returns; with
no sweeper running nobody receives and the call never returns (`none`). -/
def ExpiredMap.Close (em : ExpiredMap TK TV) : Option (ExpiredMap TK TV) :=
  if em.running then
    some (Range closeVisit em.m.entries { em with running := false })
  else
    none

/-- One call of the interface, or one firing of the sweeper's ticker. -/
inductive Op (TK TV : Type) where
  | set (key : TK) (value : TV) (ttl : Duration)
  | get (key : TK)
  | delete (key : TK)
  | ttl (key : TK)
  | forEach
  | tick
deriving DecidableEq, Repr

/-- The state after one operation performed at clock reading `now`.  The ticker only fires while
the sweeper runs; `forEach` is a `HandleForeach` whose callback does nothing and during which
the clock stays at `now`. -/
def ExpiredMap.step [Inhabited TV] (em : ExpiredMap TK TV) (op : Op TK TV) (now : Time) :
    ExpiredMap TK TV :=
  match op with
  | .set key value ttl => (em.Set key value ttl now).2
  | .get key => (em.Get key now).2
  | .delete key => em.Delete key
  | .ttl key => (em.TTL key now).2
  | .forEach => (em.HandleForeach (fun _ => now) (observer fun _ _ (c : Unit) => c) ()).1
  | .tick => if em.running then em.tick now else em

/-- The state after a sequence of operations, each with the clock reading at which it runs. -/
def ExpiredMap.run [Inhabited TV] (em : ExpiredMap TK TV) :
    List (Op TK TV × Time) → ExpiredMap TK TV
  | [] => em
  | e :: es => (em.step e.1 e.2).run es

/-- The operation is not a call on `key`: a `Set`, `Get`, `Delete` or `TTL` of another key, a
`HandleForeach`, or a tick. -/
def Op.avoids (key : TK) : Op TK TV → Bool
  | .set k _ _ => decide (k ≠ key)
  | .get k => decide (k ≠ key)
  | .delete k => decide (k ≠ key)
  | .ttl k => decide (k ≠ key)
  | .forEach => true
  | .tick => true

/-- The operation respects the calling discipline in state `em`: `Set` is called on a key that is
not stored and `Delete` on a key that is stored. -/
def Op.allowed (em : ExpiredMap TK TV) : Op TK TV → Bool
  | .set k _ _ => (em.m.lookup k).isNone
  | .delete k => (em.m.lookup k).isSome
  | _ => true

/-- Every operation of the sequence respects the calling discipline in the state it is run in. -/
def disciplined [Inhabited TV] : ExpiredMap TK TV → List (Op TK TV × Time) → Bool
  | _, [] => true
  | em, e :: es => e.1.allowed em && disciplined (em.step e.1 e.2) es

/-- The test `time.Now().After(v.expireAt.Load())` on an entry of the map. -/
def isExpired (now : Time) (e : Sigma fun _ : TK => expiredMapItem TK TV) : Bool :=
  decide (now > e.2.expireAt)

/-- The stored entries that are expired at `now`, in the order of the map. -/
def ExpiredMap.expiredEntries (em : ExpiredMap TK TV) (now : Time) :
    List (Sigma fun _ : TK => expiredMapItem TK TV) :=
  em.m.entries.filter (isExpired now)

/-- The stored entries that are live at `now`, in the order of the map. -/
def ExpiredMap.liveEntries (em : ExpiredMap TK TV) (now : Time) :
    List (Sigma fun _ : TK => expiredMapItem TK TV) :=
  em.m.entries.filter (fun e => !isExpired now e)

/-- The test `time.Now().After(v.expireAt.Load())` at the visit of an entry, when the clock reads
`clock key` at the visit of `key`. -/
def expiredAtVisit (clock : TK → Time) (e : Sigma fun _ : TK => expiredMapItem TK TV) : Bool :=
  decide (clock e.1 > e.2.expireAt)

/-- The stored entries that are live when a scan with the readings `clock` visits them, in the
order of the map. -/
def ExpiredMap.liveWhenVisited (em : ExpiredMap TK TV) (clock : TK → Time) :
    List (Sigma fun _ : TK => expiredMapItem TK TV) :=
  em.m.entries.filter (fun e => !expiredAtVisit clock e)

/-- The stored entries that are expired when a scan with the readings `clock` visits them, in
the order of the map. -/
def ExpiredMap.expiredWhenVisited (em : ExpiredMap TK TV) (clock : TK → Time) :
    List (Sigma fun _ : TK => expiredMapItem TK TV) :=
  em.m.entries.filter (expiredAtVisit clock)

/-- Erase a list of keys from a map, one after the other. -/
def eraseKeys (ks : List TK) (m : AList (fun _ : TK => expiredMapItem TK TV)) :
    AList (fun _ : TK => expiredMapItem TK TV) :=
  ks.foldl (fun acc k => acc.erase k) m

/-- The operation respects the weaker calling discipline in state `em`: `Delete` is called on a
key that is stored; `Set` may overwrite. -/
def Op.deletesStored (em : ExpiredMap TK TV) : Op TK TV → Bool
  | .delete k => (em.m.lookup k).isSome
  | _ => true

/-- No `Delete` of the sequence is called on a key that is not stored in the state it is run
in. -/
def deleteDisciplined [Inhabited TV] : ExpiredMap TK TV → List (Op TK TV × Time) → Bool
  | _, [] => true
  | em, e :: es => e.1.deletesStored em && deleteDisciplined (em.step e.1 e.2) es

/-- A map with capacity 2 and a sweeper period of one second, freshly constructed. -/
def exampleEmpty : ExpiredMap Nat Nat := NewExpiredMap 2 1000000000

/-- The map `exampleEmpty` after `Set(1, 11, 5)` at time 100 and `Set(2, 22, 50)` at time 101: it
is full. -/
def exampleFull : ExpiredMap Nat Nat :=
  ((exampleEmpty.Set 1 11 5 100).2.Set 2 22 50 101).2

/-! ## The operations on one key -/

theorem Set_of_full (em : ExpiredMap TK TV) (key : TK) (value : TV) (ttl : Duration)
    (now : Time) (h : em.capacity ≤ em.len) : em.Set key value ttl now = (false, em) := by
  simp [ExpiredMap.Set, ExpiredMap.Size, h]

theorem Set_of_room (em : ExpiredMap TK TV) (key : TK) (value : TV) (ttl : Duration)
    (now : Time) (h : em.len < em.capacity) :
    em.Set key value ttl now =
      (true, { em with m := em.m.insert key ⟨key, value, now + ttl⟩, len := em.len + 1 }) := by
  simp [ExpiredMap.Set, ExpiredMap.Size, not_le.mpr h]

theorem Get_of_absent [Inhabited TV] (em : ExpiredMap TK TV) (key : TK) (now : Time)
    (h : em.m.lookup key = none) : em.Get key now = ((default, false), em) := by
  simp [ExpiredMap.Get, h]

theorem Get_of_expired [Inhabited TV] (em : ExpiredMap TK TV) (key : TK) (now : Time)
    (v : expiredMapItem TK TV) (h : em.m.lookup key = some v) (hexp : v.expireAt < now) :
    em.Get key now = ((default, false), em.Delete key) := by
  simp [ExpiredMap.Get, h, hexp]

theorem Get_of_live [Inhabited TV] (em : ExpiredMap TK TV) (key : TK) (now : Time)
    (v : expiredMapItem TK TV) (h : em.m.lookup key = some v) (hlive : now ≤ v.expireAt) :
    em.Get key now = ((v.value, true), em) := by
  simp [ExpiredMap.Get, h, not_lt.mpr hlive]

theorem TTL_of_absent (em : ExpiredMap TK TV) (key : TK) (now : Time)
    (h : em.m.lookup key = none) : em.TTL key now = (-2, em) := by
  simp [ExpiredMap.TTL, h]

theorem TTL_of_expired (em : ExpiredMap TK TV) (key : TK) (now : Time)
    (v : expiredMapItem TK TV) (h : em.m.lookup key = some v) (hexp : v.expireAt < now) :
    em.TTL key now = (-1, em.Delete key) := by
  simp [ExpiredMap.TTL, h, hexp]

theorem TTL_of_live (em : ExpiredMap TK TV) (key : TK) (now : Time)
    (v : expiredMapItem TK TV) (h : em.m.lookup key = some v) (hlive : now ≤ v.expireAt) :
    em.TTL key now = (v.expireAt - now, em) := by
  simp [ExpiredMap.TTL, h, not_lt.mpr hlive]

theorem lookup_Delete_self (em : ExpiredMap TK TV) (key : TK) :
    (em.Delete key).m.lookup key = none := by
  simp [ExpiredMap.Delete]

theorem lookup_Delete_other (em : ExpiredMap TK TV) (key k2 : TK) (h : k2 ≠ key) :
    (em.Delete key).m.lookup k2 = em.m.lookup k2 := by
  simp [ExpiredMap.Delete, AList.lookup_erase_ne h]

/-! ## Claims about single calls -/

/-- Claim C1.  `Set` returns `false` exactly when `Size()` is at least the capacity at the time of
the call, and a `Set` that returns `false` leaves the whole state (map and counter) as it was,
also when the key is already stored. -/
theorem Set_false_iff_at_capacity (em : ExpiredMap TK TV) (key : TK) (value : TV)
    (ttl : Duration) (now : Time) :
    ((em.Set key value ttl now).1 = false ↔ em.Size ≥ em.capacity) ∧
    ((em.Set key value ttl now).1 = false → (em.Set key value ttl now).2 = em) := by
  by_cases h : em.capacity ≤ em.len
  · simp [Set_of_full em key value ttl now h, ExpiredMap.Size, h]
  · simp [Set_of_room em key value ttl now (not_le.mp h), ExpiredMap.Size, h]

/-- Claim C3.  When `key` is stored with `expireAt` strictly before `now`, `Get` returns the zero
value with `ok = false`, the key is no longer stored, the counter is one less, every other key
has the entry it had, and nothing else in the state changes. -/
theorem Get_expired_evicts [Inhabited TV] (em : ExpiredMap TK TV) (key : TK) (now : Time)
    (v : expiredMapItem TK TV) (hstored : em.m.lookup key = some v)
    (hexp : v.expireAt < now) :
    (em.Get key now).1 = (default, false) ∧
    (em.Get key now).2.m = em.m.erase key ∧
    (em.Get key now).2.m.lookup key = none ∧
    (em.Get key now).2.Size = em.Size - 1 ∧
    (∀ k2, k2 ≠ key → (em.Get key now).2.m.lookup k2 = em.m.lookup k2) ∧
    (em.Get key now).2.capacity = em.capacity ∧
    (em.Get key now).2.running = em.running := by
  rw [Get_of_expired em key now v hstored hexp]
  refine ⟨rfl, rfl, lookup_Delete_self em key, rfl, ?_, rfl, rfl⟩
  intro k2 hk
  exact lookup_Delete_other em key k2 hk

/-- Claim C4.  When `key` is stored with value `v.value` and `now` is not after its `expireAt`,
`Get` returns that value with `ok = true` and the state after the call is the state before it:
same map, same `expireAt` for the entry, same counter. -/
theorem Get_live_returns_value [Inhabited TV] (em : ExpiredMap TK TV) (key : TK) (now : Time)
    (v : expiredMapItem TK TV) (hstored : em.m.lookup key = some v)
    (hlive : now ≤ v.expireAt) :
    (em.Get key now).1 = (v.value, true) ∧
    (em.Get key now).2 = em ∧
    (em.Get key now).2.m.lookup key = some v ∧
    (em.Get key now).2.Size = em.Size := by
  rw [Get_of_live em key now v hstored hlive]
  exact ⟨rfl, rfl, hstored, rfl⟩

/-- Claim C5.  `Get` on a key that is not stored returns the zero value with `ok = false` and
leaves the state as it was.  So once a `Get` at `now` has evicted an expired key, a further `Get`
on that key at any time `t` returns not-found and does not change the state, and after any number
of further `Get`s (at the times `ts`) the state, counter included, is the one reached by the
first eviction. -/
theorem Get_absent_is_noop [Inhabited TV] (em : ExpiredMap TK TV) (key : TK) :
    (∀ now, em.m.lookup key = none → em.Get key now = ((default, false), em)) ∧
    (∀ now v, em.m.lookup key = some v → v.expireAt < now →
      (∀ t, ((em.Get key now).2.Get key t).1 = (default, false) ∧
        ((em.Get key now).2.Get key t).2 = (em.Get key now).2) ∧
      (∀ ts : List Time, ts.foldl (fun st t => (st.Get key t).2) (em.Get key now).2
          = (em.Get key now).2) ∧
      (∀ ts : List Time,
        (ts.foldl (fun st t => (st.Get key t).2) (em.Get key now).2).Size = em.Size - 1)) := by
  refine ⟨fun now h => Get_of_absent em key now h, ?_⟩
  intro now v hstored hexp
  rw [Get_of_expired em key now v hstored hexp]
  have habs := lookup_Delete_self em key
  have hfold : ∀ ts : List Time,
      ts.foldl (fun st t => (st.Get key t).2) (em.Delete key) = em.Delete key := by
    intro ts
    induction ts with
    | nil => rfl
    | cons t ts ih => rw [List.foldl_cons, Get_of_absent _ key t habs]; exact ih
  refine ⟨fun t => ?_, hfold, fun ts => ?_⟩
  · rw [Get_of_absent _ key t habs]; exact ⟨rfl, rfl⟩
  · rw [hfold ts]; rfl

/-- Claim C6.  `TTL` returns -2 and changes nothing when the key is not stored; returns -1,
removes the key and lowers the counter by one when the key is stored with `expireAt < now`;
otherwise returns `expireAt - now`, which is at least 0, and changes nothing.  Hence the result
is non-negative exactly when the key is stored and live. -/
theorem TTL_cases (em : ExpiredMap TK TV) (key : TK) (now : Time) :
    (em.m.lookup key = none → em.TTL key now = (-2, em)) ∧
    (∀ v, em.m.lookup key = some v → v.expireAt < now →
      (em.TTL key now).1 = -1 ∧ (em.TTL key now).2.m = em.m.erase key ∧
      (em.TTL key now).2.m.lookup key = none ∧ (em.TTL key now).2.Size = em.Size - 1) ∧
    (∀ v, em.m.lookup key = some v → now ≤ v.expireAt →
      em.TTL key now = (v.expireAt - now, em) ∧ 0 ≤ (em.TTL key now).1) ∧
    (0 ≤ (em.TTL key now).1 ↔ ∃ v, em.m.lookup key = some v ∧ now ≤ v.expireAt) := by
  refine ⟨fun h => TTL_of_absent em key now h, ?_, ?_, ?_⟩
  · intro v hstored hexp
    rw [TTL_of_expired em key now v hstored hexp]
    exact ⟨rfl, rfl, lookup_Delete_self em key, rfl⟩
  · intro v hstored hlive
    rw [TTL_of_live em key now v hstored hlive]
    exact ⟨rfl, sub_nonneg.mpr hlive⟩
  · cases hl : em.m.lookup key with
    | none => simp [TTL_of_absent em key now hl]
    | some v =>
      by_cases hlive : now ≤ v.expireAt
      · simp [TTL_of_live em key now v hl hlive, hlive]
      · simp [TTL_of_expired em key now v hl (not_le.mp hlive), hlive]

/-- Claim C7.  After `Delete(key)` the key is not stored (`Get` returns not-found and `TTL`
returns -2 at any time), every other key has the entry it had, and the counter is one less
whether or not the key was stored; so from a state with `Size() = capacity`, a `Delete` of any
key followed by a `Set` of any key returns `true`. -/
theorem Delete_effect [Inhabited TV] (em : ExpiredMap TK TV) (key : TK) :
    (em.Delete key).m.lookup key = none ∧
    (∀ t, ((em.Delete key).Get key t).1 = (default, false)) ∧
    (∀ t, ((em.Delete key).TTL key t).1 = -2) ∧
    (∀ k2, k2 ≠ key → (em.Delete key).m.lookup k2 = em.m.lookup k2) ∧
    (em.Delete key).Size = em.Size - 1 ∧
    (em.Size = em.capacity → ∀ k2 value ttl now,
      ((em.Delete key).Set k2 value ttl now).1 = true) := by
  have habs := lookup_Delete_self em key
  refine ⟨habs, fun t => ?_, fun t => ?_, fun k2 hk => lookup_Delete_other em key k2 hk, rfl, ?_⟩
  · rw [Get_of_absent _ key t habs]
  · rw [TTL_of_absent _ key t habs]
  · intro hfull k2 value ttl now
    have hroom : (em.Delete key).len < (em.Delete key).capacity := by
      have : em.len = em.capacity := hfull
      simp only [ExpiredMap.Delete]
      omega
    rw [Set_of_room _ k2 value ttl now hroom]

/-! ## Scans of the map -/

theorem kerase_eq_filter_ne (a : TK) :
    ∀ l : List (Sigma fun _ : TK => expiredMapItem TK TV), l.NodupKeys →
      l.kerase a = l.filter (fun e => decide (e.1 ≠ a)) := by
  intro l
  induction l with
  | nil => intro _; rfl
  | cons e l ih =>
    intro nd
    obtain ⟨hnot, ndl⟩ := List.nodupKeys_cons.mp nd
    by_cases h : a = e.1
    · rw [List.kerase_cons_eq h, List.filter_cons_of_neg (by simp [h])]
      symm
      apply List.filter_eq_self.mpr
      intro x hx
      have hxk : x.1 ∈ l.keys := List.mem_keys_of_mem hx
      have : x.1 ≠ a := by
        intro hxa
        rw [hxa, h] at hxk
        exact hnot hxk
      simp [this]
    · rw [List.kerase_cons_ne h, List.filter_cons_of_pos (by simpa using Ne.symm h), ih ndl]

theorem eraseKeys_cons (k : TK) (ks : List TK)
    (m : AList (fun _ : TK => expiredMapItem TK TV)) :
    eraseKeys (k :: ks) m = eraseKeys ks (m.erase k) := rfl

theorem entries_eraseKeys (ks : List TK) :
    ∀ m : AList (fun _ : TK => expiredMapItem TK TV),
      (eraseKeys ks m).entries = m.entries.filter (fun e => decide (e.1 ∉ ks)) := by
  induction ks with
  | nil => intro m; simp [eraseKeys]
  | cons k ks ih =>
    intro m
    rw [eraseKeys_cons, ih (m.erase k)]
    show (m.entries.kerase k).filter _ = _
    rw [kerase_eq_filter_ne k m.entries m.nodupKeys, List.filter_filter]
    apply List.filter_congr
    intro x _
    by_cases h1 : x.1 = k <;> by_cases h2 : x.1 ∈ ks <;> simp [h1, h2]

theorem lookup_eraseKeys (ks : List TK) (k : TK) :
    ∀ m : AList (fun _ : TK => expiredMapItem TK TV),
      (eraseKeys ks m).lookup k = if k ∈ ks then none else m.lookup k := by
  induction ks with
  | nil => intro m; simp [eraseKeys]
  | cons a ks ih =>
    intro m
    rw [eraseKeys_cons, ih (m.erase a)]
    by_cases h1 : k = a
    · subst h1
      simp
    · by_cases h2 : k ∈ ks
      · simp [h2]
      · simp [h1, h2, AList.lookup_erase_ne h1]

theorem Range_sweepVisit (now : Time) :
    ∀ (es : List (Sigma fun _ : TK => expiredMapItem TK TV)) (em : ExpiredMap TK TV),
      Range (sweepVisit now) es em =
        { em with
          m := eraseKeys (es.filter (isExpired now)).keys em.m
          len := em.len - ((es.filter (isExpired now)).length : Int) } := by
  intro es
  induction es with
  | nil => intro em; simp [Range, eraseKeys, List.keys]
  | cons e es ih =>
    intro em
    by_cases h : now > e.2.expireAt
    · have he : isExpired now e = true := by simp [isExpired, h]
      simp only [Range, sweepVisit, h, if_true, ih, List.filter_cons_of_pos he, List.keys_cons,
        eraseKeys_cons, List.length_cons, ExpiredMap.Delete]
      congr 1
      push_cast
      ring
    · have he : ¬ isExpired now e = true := by simp [isExpired, h]
      simp only [Range, sweepVisit, h, if_false, ih, List.filter_cons_of_neg he]

theorem RangeLoad_foreachVisit_observer {σ : Type} (clock : TK → Time)
    (cb : TK → TV → σ → σ) :
    ∀ (es : List (Sigma fun _ : TK => expiredMapItem TK TV)) (em : ExpiredMap TK TV) (c : σ),
      es.NodupKeys → (∀ e ∈ es, em.m.lookup e.1 = some e.2) →
      RangeLoad (fun st k => st.1.m.lookup k) (foreachVisit clock (observer cb)) es.keys (em, c) =
        ({ em with
            m := eraseKeys (es.filter (expiredAtVisit clock)).keys em.m
            len := em.len - ((es.filter (expiredAtVisit clock)).length : Int) },
          (es.filter (fun e => !expiredAtVisit clock e)).foldl
            (fun acc e => cb e.1 e.2.value acc) c) := by
  intro es
  induction es with
  | nil => intro em c _ _; simp [RangeLoad, eraseKeys, List.keys]
  | cons e es ih =>
    intro em c nd hl
    obtain ⟨hnot, ndl⟩ := List.nodupKeys_cons.mp nd
    have hle : em.m.lookup e.1 = some e.2 := hl e (List.mem_cons_self _ _)
    rw [List.keys_cons]
    simp only [RangeLoad, hle]
    by_cases h : clock e.1 > e.2.expireAt
    · have hf1 : (e :: es).filter (expiredAtVisit clock) =
          e :: es.filter (expiredAtVisit clock) := by
        simp [List.filter_cons, expiredAtVisit, h]
      have hf2 : (e :: es).filter (fun e => !expiredAtVisit clock e) =
          es.filter (fun e => !expiredAtVisit clock e) := by
        simp [List.filter_cons, expiredAtVisit, h]
      have hl2 : ∀ x ∈ es, (em.Delete e.1).m.lookup x.1 = some x.2 := by
        intro x hx
        have hne : x.1 ≠ e.1 := by
          intro hxe
          apply hnot
          rw [← hxe]
          exact List.mem_keys_of_mem hx
        rw [lookup_Delete_other em e.1 x.1 hne]
        exact hl x (List.mem_cons_of_mem _ hx)
      simp only [foreachVisit, h, if_true]
      rw [ih (em.Delete e.1) c ndl hl2, hf1, hf2, List.keys_cons, eraseKeys_cons,
        List.length_cons]
      simp only [ExpiredMap.Delete]
      congr 2
      push_cast
      ring
    · have hf1 : (e :: es).filter (expiredAtVisit clock) =
          es.filter (expiredAtVisit clock) := by
        simp [List.filter_cons, expiredAtVisit, not_lt.mp h]
      have hf2 : (e :: es).filter (fun e => !expiredAtVisit clock e) =
          e :: es.filter (fun e => !expiredAtVisit clock e) := by
        simp [List.filter_cons, expiredAtVisit, not_lt.mp h]
      simp only [foreachVisit, h, if_false, observer]
      rw [ih em (cb e.1 e.2.value c) ndl (fun x hx => hl x (List.mem_cons_of_mem _ hx)),
        hf1, hf2, List.foldl_cons]

theorem Range_closeVisit :
    ∀ (es : List (Sigma fun _ : TK => expiredMapItem TK TV)) (em : ExpiredMap TK TV),
      Range closeVisit es em =
        { em with m := eraseKeys es.keys em.m, len := em.len - (es.length : Int) } := by
  intro es
  induction es with
  | nil => intro em; simp [Range, eraseKeys, List.keys]
  | cons e es ih =>
    intro em
    simp only [Range, closeVisit, ih, List.keys_cons, eraseKeys_cons, List.length_cons,
      ExpiredMap.Delete]
    congr 1
    push_cast
    ring

theorem filter_not_mem_expired_keys (now : Time)
    (l : List (Sigma fun _ : TK => expiredMapItem TK TV)) (nd : l.NodupKeys) :
    l.filter (fun e => decide (e.1 ∉ (l.filter (isExpired now)).keys)) =
      l.filter (fun e => !isExpired now e) := by
  apply List.filter_congr
  intro x hx
  by_cases hexp : isExpired now x = true
  · have hmem : x.1 ∈ (l.filter (isExpired now)).keys :=
      List.mem_keys_of_mem (List.mem_filter.mpr ⟨hx, hexp⟩)
    simp [hexp, hmem]
  · have hnot : x.1 ∉ (l.filter (isExpired now)).keys := by
      intro hk
      obtain ⟨b, hb⟩ := List.mem_keys.mp hk
      obtain ⟨hbl, hbe⟩ := List.mem_filter.mp hb
      have hxl : (Sigma.mk x.1 x.2 : Sigma fun _ : TK => expiredMapItem TK TV) ∈ l := hx
      have : b = x.2 := nd.eq_of_mk_mem hbl hxl
      subst this
      exact hexp hbe
    simp [hexp, hnot]

theorem tick_eq (em : ExpiredMap TK TV) (now : Time) :
    em.tick now =
      { em with
        m := eraseKeys (em.expiredEntries now).keys em.m
        len := em.len - ((em.expiredEntries now).length : Int) } :=
  Range_sweepVisit now em.m.entries em

theorem entries_tick (em : ExpiredMap TK TV) (now : Time) :
    (em.tick now).m.entries = em.liveEntries now := by
  rw [tick_eq]
  show (eraseKeys _ em.m).entries = _
  rw [entries_eraseKeys]
  exact filter_not_mem_expired_keys now em.m.entries em.m.nodupKeys

theorem filter_not_mem_filter_keys
    (p : (Sigma fun _ : TK => expiredMapItem TK TV) → Bool)
    (l : List (Sigma fun _ : TK => expiredMapItem TK TV)) (nd : l.NodupKeys) :
    l.filter (fun e => decide (e.1 ∉ (l.filter p).keys)) = l.filter (fun e => !p e) := by
  apply List.filter_congr
  intro x hx
  by_cases hp : p x = true
  · have hmem : x.1 ∈ (l.filter p).keys :=
      List.mem_keys_of_mem (List.mem_filter.mpr ⟨hx, hp⟩)
    simp [hp, hmem]
  · have hnot : x.1 ∉ (l.filter p).keys := by
      intro hk
      obtain ⟨b, hb⟩ := List.mem_keys.mp hk
      obtain ⟨hbl, hbe⟩ := List.mem_filter.mp hb
      have hxl : (Sigma.mk x.1 x.2 : Sigma fun _ : TK => expiredMapItem TK TV) ∈ l := hx
      have : b = x.2 := nd.eq_of_mk_mem hbl hxl
      subst this
      exact hp hbe
    simp [hp, hnot]

theorem lookup_of_entries_filter (m2 m : AList (fun _ : TK => expiredMapItem TK TV))
    (p : (Sigma fun _ : TK => expiredMapItem TK TV) → Bool)
    (h : m2.entries = m.entries.filter p) (k : TK) :
    m2.lookup k = (m.lookup k).filter (fun v => p ⟨k, v⟩) := by
  cases hr : m2.lookup k with
  | some v =>
    have h1 : (Sigma.mk k v : Sigma fun _ : TK => expiredMapItem TK TV) ∈ m2.entries :=
      AList.mem_lookup_iff.mp hr
    rw [h] at h1
    obtain ⟨h2, h3⟩ := List.mem_filter.mp h1
    have h4 : m.lookup k = some v := AList.mem_lookup_iff.mpr h2
    simp [h4, h3, Option.filter]
  | none =>
    cases hl : m.lookup k with
    | none => rfl
    | some v =>
      by_cases hv : p ⟨k, v⟩ = true
      · have h1 : (Sigma.mk k v : Sigma fun _ : TK => expiredMapItem TK TV) ∈ m2.entries := by
          rw [h]
          exact List.mem_filter.mpr ⟨AList.mem_lookup_iff.mp hl, hv⟩
        have h2 := AList.mem_lookup_iff.mpr h1
        rw [hr] at h2
        cases h2
      · simp [hv, Option.filter]

theorem HandleForeach_observer_eq {σ : Type} (em : ExpiredMap TK TV) (clock : TK → Time)
    (cb : TK → TV → σ → σ) (c : σ) :
    em.HandleForeach clock (observer cb) c =
      ({ em with
          m := eraseKeys (em.expiredWhenVisited clock).keys em.m
          len := em.len - ((em.expiredWhenVisited clock).length : Int) },
        (em.liveWhenVisited clock).foldl (fun acc e => cb e.1 e.2.value acc) c) :=
  RangeLoad_foreachVisit_observer clock cb em.m.entries em c em.m.nodupKeys
    (fun _ he => AList.mem_lookup_iff.mpr he)

theorem HandleForeach_eq {σ : Type} (em : ExpiredMap TK TV) (now : Time)
    (cb : TK → TV → σ → σ) (c : σ) :
    em.HandleForeach (fun _ => now) (observer cb) c =
      (em.tick now, (em.liveEntries now).foldl (fun acc e => cb e.1 e.2.value acc) c) := by
  rw [HandleForeach_observer_eq, tick_eq]
  rfl

theorem entries_HandleForeach_observer {σ : Type} (em : ExpiredMap TK TV) (clock : TK → Time)
    (cb : TK → TV → σ → σ) (c : σ) :
    (em.HandleForeach clock (observer cb) c).1.m.entries = em.liveWhenVisited clock := by
  rw [HandleForeach_observer_eq]
  show (eraseKeys _ em.m).entries = _
  rw [entries_eraseKeys]
  exact filter_not_mem_filter_keys (expiredAtVisit clock) em.m.entries em.m.nodupKeys

theorem RangeLoad_eq_Range {σ : Type} (load : σ → TK → Option (expiredMapItem TK TV))
    (f : TK → expiredMapItem TK TV → σ → Bool × σ)
    (hframe : ∀ k v st k2, k2 ≠ k → load (f k v st).2 k2 = load st k2) :
    ∀ (es : List (Sigma fun _ : TK => expiredMapItem TK TV)) (st : σ),
      es.NodupKeys → (∀ e ∈ es, load st e.1 = some e.2) →
      RangeLoad load f es.keys st = Range f es st := by
  intro es
  induction es with
  | nil => intro st _ _; rfl
  | cons e es ih =>
    intro st nd hl
    obtain ⟨hnot, ndl⟩ := List.nodupKeys_cons.mp nd
    have hle : load st e.1 = some e.2 := hl e (List.mem_cons_self _ _)
    have hl2 : ∀ x ∈ es, load (f e.1 e.2 st).2 x.1 = some x.2 := by
      intro x hx
      have hne : x.1 ≠ e.1 := by
        intro hxe
        apply hnot
        rw [← hxe]
        exact List.mem_keys_of_mem hx
      rw [hframe e.1 e.2 st x.1 hne]
      exact hl x (List.mem_cons_of_mem _ hx)
    rw [List.keys_cons]
    simp only [RangeLoad, Range, hle]
    cases hf : f e.1 e.2 st with
    | mk b st1 =>
      rw [hf] at hl2
      cases b with
      | true => exact ih st1 ndl hl2
      | false => rfl

theorem tick_eq_RangeLoad (em : ExpiredMap TK TV) (now : Time) :
    RangeLoad (fun st k => st.m.lookup k) (sweepVisit now) em.m.keys em = em.tick now := by
  apply RangeLoad_eq_Range _ _ _ em.m.entries em em.m.nodupKeys
    (fun _ he => AList.mem_lookup_iff.mpr he)
  intro k v st k2 hne
  by_cases h : now > v.expireAt
  · simp only [sweepVisit, h, if_true]
    exact lookup_Delete_other st k k2 hne
  · simp only [sweepVisit, h, if_false]

theorem closeVisit_RangeLoad (em : ExpiredMap TK TV) :
    RangeLoad (fun st k => st.m.lookup k) closeVisit em.m.keys em =
      Range closeVisit em.m.entries em := by
  apply RangeLoad_eq_Range _ _ _ em.m.entries em em.m.nodupKeys
    (fun _ he => AList.mem_lookup_iff.mpr he)
  intro k v st k2 hne
  exact lookup_Delete_other st k k2 hne

theorem mem_liveEntries (em : ExpiredMap TK TV) (now : Time) (k : TK)
    (v : expiredMapItem TK TV) :
    (Sigma.mk k v : Sigma fun _ : TK => expiredMapItem TK TV) ∈ em.liveEntries now ↔
      em.m.lookup k = some v ∧ now ≤ v.expireAt := by
  unfold ExpiredMap.liveEntries
  rw [List.mem_filter, ← AList.mem_lookup_iff]
  simp [isExpired]

theorem mem_expiredEntries (em : ExpiredMap TK TV) (now : Time) (k : TK)
    (v : expiredMapItem TK TV) :
    (Sigma.mk k v : Sigma fun _ : TK => expiredMapItem TK TV) ∈ em.expiredEntries now ↔
      em.m.lookup k = some v ∧ v.expireAt < now := by
  unfold ExpiredMap.expiredEntries
  rw [List.mem_filter, ← AList.mem_lookup_iff]
  simp [isExpired]

theorem lookup_tick (em : ExpiredMap TK TV) (now : Time) (k : TK) :
    (em.tick now).m.lookup k =
      (em.m.lookup k).filter (fun v => decide (now ≤ v.expireAt)) := by
  cases hr : (em.tick now).m.lookup k with
  | some v =>
    have h1 : (Sigma.mk k v : Sigma fun _ : TK => expiredMapItem TK TV) ∈ (em.tick now).m.entries :=
      AList.mem_lookup_iff.mp hr
    rw [entries_tick] at h1
    obtain ⟨h2, h3⟩ := (mem_liveEntries em now k v).mp h1
    simp [h2, h3, Option.filter]
  | none =>
    cases hl : em.m.lookup k with
    | none => rfl
    | some v =>
      by_cases hv : now ≤ v.expireAt
      · have h1 := (mem_liveEntries em now k v).mpr ⟨hl, hv⟩
        rw [← entries_tick] at h1
        have h2 := AList.mem_lookup_iff.mpr h1
        rw [hr] at h2
        cases h2
      · simp [hv, Option.filter]

theorem length_live_add_expired (em : ExpiredMap TK TV) (now : Time) :
    (em.liveEntries now).length + (em.expiredEntries now).length = em.m.entries.length := by
  unfold ExpiredMap.liveEntries ExpiredMap.expiredEntries
  induction em.m.entries with
  | nil => rfl
  | cons e es ih =>
    by_cases h : isExpired now e = true
    · simp [h]; omega
    · simp [h]; omega

/-! ## Claims about scans -/

theorem foldl_log {α β : Type} (f : α → β) (l : List α) :
    ∀ init : List β, l.foldl (fun acc e => acc ++ [f e]) init = init ++ l.map f := by
  induction l with
  | nil => intro init; simp
  | cons a l ih => intro init; simp [ih]

theorem mem_liveWhenVisited (em : ExpiredMap TK TV) (clock : TK → Time) (k : TK)
    (v : expiredMapItem TK TV) :
    (Sigma.mk k v : Sigma fun _ : TK => expiredMapItem TK TV) ∈ em.liveWhenVisited clock ↔
      em.m.lookup k = some v ∧ clock k ≤ v.expireAt := by
  unfold ExpiredMap.liveWhenVisited
  rw [List.mem_filter, ← AList.mem_lookup_iff]
  simp [expiredAtVisit]

theorem mem_expiredWhenVisited (em : ExpiredMap TK TV) (clock : TK → Time) (k : TK)
    (v : expiredMapItem TK TV) :
    (Sigma.mk k v : Sigma fun _ : TK => expiredMapItem TK TV) ∈ em.expiredWhenVisited clock ↔
      em.m.lookup k = some v ∧ v.expireAt < clock k := by
  unfold ExpiredMap.expiredWhenVisited
  rw [List.mem_filter, ← AList.mem_lookup_iff]
  simp [expiredAtVisit]

/-- Claim C8, as the code has it.  Let the callback not call the map (`observer cb`) and let
`clock k` be the reading of the clock when the scan visits key `k`.  `HandleForeach` calls the
callback on the stored entries that are live when they are visited, in the order of the scan,
with the key and the stored value of each: the state of the caller at the end is `cb` folded over
`liveWhenVisited`, and a callback that logs its arguments ends with exactly the list of their
keys and values.  That list has no key twice and holds exactly the stored entries with
`clock k ≤ expireAt`, so no entry that is expired when visited is passed.  In the map, every
entry that is expired when visited is gone and every other entry is as before, and the counter
has gone down by the number of entries removed.  When the clock stays at `now` during the scan,
these are the entries live, and expired, at `now`, the time of the call. -/
theorem HandleForeach_calls_live_when_visited {σ : Type} (em : ExpiredMap TK TV)
    (clock : TK → Time) (cb : TK → TV → σ → σ) (c : σ) :
    (em.HandleForeach clock (observer cb) c).2 =
        (em.liveWhenVisited clock).foldl (fun acc e => cb e.1 e.2.value acc) c ∧
    (em.HandleForeach clock
        (observer fun k v (log : List (TK × TV)) => log ++ [(k, v)]) []).2 =
        (em.liveWhenVisited clock).map (fun e => (e.1, e.2.value)) ∧
    (em.liveWhenVisited clock).NodupKeys ∧
    (∀ k v,
      (Sigma.mk k v : Sigma fun _ : TK => expiredMapItem TK TV) ∈ em.liveWhenVisited clock ↔
        em.m.lookup k = some v ∧ clock k ≤ v.expireAt) ∧
    (em.HandleForeach clock (observer cb) c).1.m.entries = em.liveWhenVisited clock ∧
    (∀ k, (em.HandleForeach clock (observer cb) c).1.m.lookup k =
        (em.m.lookup k).filter (fun v => decide (clock k ≤ v.expireAt))) ∧
    (em.HandleForeach clock (observer cb) c).1.Size =
        em.Size - ((em.expiredWhenVisited clock).length : Int) ∧
    (∀ k v,
      (Sigma.mk k v : Sigma fun _ : TK => expiredMapItem TK TV) ∈ em.expiredWhenVisited clock ↔
        em.m.lookup k = some v ∧ v.expireAt < clock k) ∧
    (∀ now, (∀ k, clock k = now) →
      em.liveWhenVisited clock = em.liveEntries now ∧
      em.expiredWhenVisited clock = em.expiredEntries now) := by
  refine ⟨?_, ?_, ?_, mem_liveWhenVisited em clock, entries_HandleForeach_observer em clock cb c,
    ?_, ?_, mem_expiredWhenVisited em clock, ?_⟩
  · rw [HandleForeach_observer_eq]
  · rw [HandleForeach_observer_eq]
    exact foldl_log (fun e : Sigma fun _ : TK => expiredMapItem TK TV => (e.1, e.2.value)) _ []
  · exact em.m.nodupKeys.sublist (List.filter_sublist _)
  · intro k
    rw [lookup_of_entries_filter _ em.m (fun e => !expiredAtVisit clock e)
      (entries_HandleForeach_observer em clock cb c) k]
    congr 1
    funext v
    show (!decide (clock k > v.expireAt)) = decide (clock k ≤ v.expireAt)
    by_cases h : clock k ≤ v.expireAt
    · simp [h, not_lt.mpr h]
    · simp [h, not_le.mp h]
  · rw [HandleForeach_observer_eq]
    rfl
  · intro now hnow
    have hc : clock = fun _ => now := funext hnow
    subst hc
    exact ⟨rfl, rfl⟩

/-- Claim C8 fails as stated.  In `exampleFull` both entries are live at 104, the time of the
call, and the scan visits key 2 first.  If the callback on key 2 takes until 106, key 1 (live
until 105) is expired when its turn comes and is removed without a call.  If the callback on
key 2 deletes key 1, the scan skips key 1.  Either way the callback runs for key 2 only. -/
theorem HandleForeach_misses_live_entry :
    (exampleFull.liveEntries 104).map (fun e => (e.1, e.2.value)) = [(2, 22), (1, 11)] ∧
    (exampleFull.HandleForeach (fun k => if k = 2 then 104 else 106)
        (observer fun k v (log : List (Nat × Nat)) => log ++ [(k, v)]) []).2 = [(2, 22)] ∧
    (exampleFull.HandleForeach (fun _ => 104)
        (fun k v (st : ExpiredMap Nat Nat × List (Nat × Nat)) =>
          (if k = 2 then st.1.Delete 1 else st.1, st.2 ++ [(k, v)])) []).2 = [(2, 22)] := by
  decide

/-- Claim C9.  One tick of the sweeper at `now` leaves in the map exactly the entries with
`now ≤ expireAt`, each as it was, and removes exactly the entries with `expireAt < now`; the
counter goes down by the number of entries removed; after the tick no stored entry is expired at
`now`. -/
theorem tick_removes_exactly_expired (em : ExpiredMap TK TV) (now : Time) :
    (em.tick now).m.entries = em.liveEntries now ∧
    (∀ k v, em.m.lookup k = some v → v.expireAt < now → (em.tick now).m.lookup k = none) ∧
    (∀ k v, em.m.lookup k = some v → now ≤ v.expireAt → (em.tick now).m.lookup k = some v) ∧
    (∀ k, em.m.lookup k = none → (em.tick now).m.lookup k = none) ∧
    ((em.m.entries.length : Int) - ((em.tick now).m.entries.length : Int) =
        ((em.expiredEntries now).length : Int)) ∧
    (em.tick now).Size = em.Size - ((em.expiredEntries now).length : Int) ∧
    (em.tick now).Size =
        em.Size - ((em.m.entries.length : Int) - ((em.tick now).m.entries.length : Int)) ∧
    (∀ k v, (em.tick now).m.lookup k = some v → now ≤ v.expireAt) := by
  have hlen : (em.m.entries.length : Int) - ((em.tick now).m.entries.length : Int) =
      ((em.expiredEntries now).length : Int) := by
    rw [entries_tick]
    have := length_live_add_expired em now
    omega
  have hsize : (em.tick now).Size = em.Size - ((em.expiredEntries now).length : Int) := by
    rw [tick_eq]
    rfl
  refine ⟨entries_tick em now, ?_, ?_, ?_, hlen, hsize, ?_, ?_⟩
  · intro k v hl hexp
    rw [lookup_tick, hl]
    simp [Option.filter, not_le.mpr hexp]
  · intro k v hl hlive
    rw [lookup_tick, hl]
    simp [Option.filter, hlive]
  · intro k hl
    rw [lookup_tick, hl]
    rfl
  · rw [hlen]
    exact hsize
  · intro k v hl
    rw [lookup_tick] at hl
    cases hk : em.m.lookup k with
    | none => rw [hk] at hl; cases hl
    | some w =>
      rw [hk] at hl
      by_cases hw : now ≤ w.expireAt
      · simp [Option.filter, hw] at hl
        rw [← hl]
        exact hw
      · simp [Option.filter, hw] at hl

/-! ## Sequences of operations -/

theorem lookup_Set_other (em : ExpiredMap TK TV) (key k2 : TK) (value : TV) (ttl : Duration)
    (now : Time) (h : k2 ≠ key) :
    (em.Set key value ttl now).2.m.lookup k2 = em.m.lookup k2 := by
  by_cases hc : em.capacity ≤ em.len
  · rw [Set_of_full em key value ttl now hc]
  · rw [Set_of_room em key value ttl now (not_le.mp hc)]
    exact AList.lookup_insert_ne h

theorem lookup_Get_other [Inhabited TV] (em : ExpiredMap TK TV) (key k2 : TK) (now : Time)
    (h : k2 ≠ key) : (em.Get key now).2.m.lookup k2 = em.m.lookup k2 := by
  cases hl : em.m.lookup key with
  | none => rw [Get_of_absent em key now hl]
  | some v =>
    by_cases hv : now ≤ v.expireAt
    · rw [Get_of_live em key now v hl hv]
    · rw [Get_of_expired em key now v hl (not_le.mp hv)]
      exact lookup_Delete_other em key k2 h

theorem lookup_TTL_other (em : ExpiredMap TK TV) (key k2 : TK) (now : Time) (h : k2 ≠ key) :
    (em.TTL key now).2.m.lookup k2 = em.m.lookup k2 := by
  cases hl : em.m.lookup key with
  | none => rw [TTL_of_absent em key now hl]
  | some v =>
    by_cases hv : now ≤ v.expireAt
    · rw [TTL_of_live em key now v hl hv]
    · rw [TTL_of_expired em key now v hl (not_le.mp hv)]
      exact lookup_Delete_other em key k2 h

theorem lookup_step_avoids [Inhabited TV] (em : ExpiredMap TK TV) (op : Op TK TV) (now : Time)
    (k : TK) (h : op.avoids k = true) :
    (em.step op now).m.lookup k = em.m.lookup k ∨
      (em.step op now).m.lookup k =
        (em.m.lookup k).filter (fun v => decide (now ≤ v.expireAt)) := by
  cases op with
  | set key value ttl =>
    have hk : k ≠ key := fun e => by simp [Op.avoids, e] at h
    exact Or.inl (lookup_Set_other em key k value ttl now hk)
  | get key =>
    have hk : k ≠ key := fun e => by simp [Op.avoids, e] at h
    exact Or.inl (lookup_Get_other em key k now hk)
  | delete key =>
    have hk : k ≠ key := fun e => by simp [Op.avoids, e] at h
    exact Or.inl (lookup_Delete_other em key k hk)
  | ttl key =>
    have hk : k ≠ key := fun e => by simp [Op.avoids, e] at h
    exact Or.inl (lookup_TTL_other em key k now hk)
  | forEach =>
    right
    show (em.HandleForeach (fun _ => now) (observer fun _ _ (c : Unit) => c) ()).1.m.lookup k
      = _
    rw [HandleForeach_eq]
    exact lookup_tick em now k
  | tick =>
    by_cases hr : em.running = true
    · right
      simp only [ExpiredMap.step, hr, if_true]
      exact lookup_tick em now k
    · left
      simp only [ExpiredMap.step, hr]
      rfl

theorem lookup_run_some_or_none [Inhabited TV] (k : TK) (v : expiredMapItem TK TV) :
    ∀ (tr : List (Op TK TV × Time)) (em : ExpiredMap TK TV),
      (∀ e ∈ tr, e.1.avoids k = true) →
      (em.m.lookup k = some v ∨ em.m.lookup k = none) →
      ((em.run tr).m.lookup k = some v ∨ (em.run tr).m.lookup k = none) := by
  intro tr
  induction tr with
  | nil => intro em _ h; exact h
  | cons e tr ih =>
    intro em hav h
    apply ih (em.step e.1 e.2) (fun x hx => hav x (List.mem_cons_of_mem _ hx))
    rcases lookup_step_avoids em e.1 e.2 k (hav e (List.mem_cons_self _ _)) with h1 | h1
    · rw [h1]; exact h
    · rw [h1]
      rcases h with h | h
      · rw [h]
        by_cases hv : e.2 ≤ v.expireAt
        · left; simp [Option.filter, hv]
        · right; simp [Option.filter, hv]
      · rw [h]; right; rfl

theorem lookup_run_keeps_live [Inhabited TV] (k : TK) (v : expiredMapItem TK TV) :
    ∀ (tr : List (Op TK TV × Time)) (em : ExpiredMap TK TV),
      (∀ e ∈ tr, e.1.avoids k = true) → (∀ e ∈ tr, e.2 ≤ v.expireAt) →
      em.m.lookup k = some v → (em.run tr).m.lookup k = some v := by
  intro tr
  induction tr with
  | nil => intro em _ _ h; exact h
  | cons e tr ih =>
    intro em hav hts h
    apply ih (em.step e.1 e.2) (fun x hx => hav x (List.mem_cons_of_mem _ hx))
      (fun x hx => hts x (List.mem_cons_of_mem _ hx))
    rcases lookup_step_avoids em e.1 e.2 k (hav e (List.mem_cons_self _ _)) with h1 | h1
    · rw [h1]; exact h
    · rw [h1, h]
      simp [Option.filter, hts e (List.mem_cons_self _ _)]

/-- Claim C2.  Let `Set(k, v, d)` succeed at `t0`, and let it be followed by operations that are
ticks of the sweeper, `HandleForeach` calls, or calls on other keys, at times that do not
decrease, and then by `Get(k)` at `t`.  If `t < t0 + d` the `Get` returns `(v, true)`; if
`t0 + d < t` it returns the zero value with `ok = false`.  The map `em` is arbitrary, so `k` may
have been stored before the `Set` or not. -/
theorem Get_after_Set_respects_ttl [Inhabited TV] (em : ExpiredMap TK TV) (k : TK) (v : TV)
    (d : Duration) (t0 : Time) (tr : List (Op TK TV × Time)) (t : Time)
    (hset : (em.Set k v d t0).1 = true)
    (hother : ∀ e ∈ tr, e.1.avoids k = true)
    (htimes : List.Sorted (fun a b : Time => a ≤ b) (t0 :: (tr.map Prod.snd ++ [t]))) :
    (t < t0 + d → (((em.Set k v d t0).2.run tr).Get k t).1 = (v, true)) ∧
    (t0 + d < t → (((em.Set k v d t0).2.run tr).Get k t).1 = (default, false)) := by
  have hroom : em.len < em.capacity := by
    by_contra hc
    rw [Set_of_full em k v d t0 (not_lt.mp hc)] at hset
    cases hset
  have hstored : (em.Set k v d t0).2.m.lookup k = some ⟨k, v, t0 + d⟩ := by
    rw [Set_of_room em k v d t0 hroom]
    exact AList.lookup_insert _
  constructor
  · intro hlt
    have hle : ∀ e ∈ tr, e.2 ≤ t := by
      intro e he
      have hp := (List.pairwise_cons.mp htimes).2
      have := (List.pairwise_append.mp hp).2.2 e.2 (List.mem_map_of_mem _ he) t
        (List.mem_singleton_self t)
      exact this
    have hkeep := lookup_run_keeps_live k ⟨k, v, t0 + d⟩ tr (em.Set k v d t0).2 hother
      (fun e he => le_of_lt (lt_of_le_of_lt (hle e he) hlt)) hstored
    rw [Get_of_live _ k t _ hkeep (le_of_lt hlt)]
  · intro hgt
    rcases lookup_run_some_or_none k ⟨k, v, t0 + d⟩ tr (em.Set k v d t0).2 hother
      (Or.inl hstored) with h | h
    · rw [Get_of_expired _ k t _ h hgt]
    · rw [Get_of_absent _ k t h]

/-! ## The counter and the number of stored entries -/

theorem length_erase_of_mem (m : AList (fun _ : TK => expiredMapItem TK TV)) (k : TK)
    (h : k ∈ m) : ((m.erase k).entries.length : Int) = (m.entries.length : Int) - 1 := by
  have h1 : (m.erase k).entries.length = (m.erase k).keys.length := by
    simp [AList.keys, List.keys]
  have h2 : m.entries.length = m.keys.length := by
    simp [AList.keys, List.keys]
  have h3 : 0 < m.keys.length := List.length_pos_of_mem h
  rw [h1, h2, AList.keys_erase, List.length_erase_of_mem h]
  omega

theorem agree_Delete_of_mem (em : ExpiredMap TK TV) (k : TK) (h : k ∈ em.m)
    (hag : em.len = (em.m.entries.length : Int)) :
    (em.Delete k).len = ((em.Delete k).m.entries.length : Int) := by
  show em.len - 1 = ((em.m.erase k).entries.length : Int)
  rw [length_erase_of_mem em.m k h, hag]

theorem agree_tick (em : ExpiredMap TK TV) (now : Time)
    (hag : em.len = (em.m.entries.length : Int)) :
    (em.tick now).len = ((em.tick now).m.entries.length : Int) := by
  rw [entries_tick, tick_eq]
  show em.len - _ = _
  have := length_live_add_expired em now
  omega

theorem running_Delete (em : ExpiredMap TK TV) (k : TK) :
    (em.Delete k).running = em.running := rfl

theorem running_tick (em : ExpiredMap TK TV) (now : Time) :
    (em.tick now).running = em.running := by
  rw [tick_eq]

theorem step_forEach [Inhabited TV] (em : ExpiredMap TK TV) (now : Time) :
    em.step Op.forEach now = em.tick now := by
  show (em.HandleForeach (fun _ => now) (observer fun _ _ (c : Unit) => c) ()).1 = _
  rw [HandleForeach_eq]

theorem step_tick [Inhabited TV] (em : ExpiredMap TK TV) (now : Time) :
    em.step Op.tick now = em.tick now ∨ em.step Op.tick now = em := by
  by_cases hr : em.running = true
  · left; simp [ExpiredMap.step, hr]
  · right; simp [ExpiredMap.step, hr]

theorem running_step [Inhabited TV] (em : ExpiredMap TK TV) (op : Op TK TV) (now : Time) :
    (em.step op now).running = em.running := by
  cases op with
  | set key value ttl =>
    by_cases hc : em.capacity ≤ em.len
    · simp [ExpiredMap.step, Set_of_full em key value ttl now hc]
    · simp [ExpiredMap.step, Set_of_room em key value ttl now (not_le.mp hc)]
  | get key =>
    cases hl : em.m.lookup key with
    | none => simp [ExpiredMap.step, Get_of_absent em key now hl]
    | some v =>
      by_cases hv : now ≤ v.expireAt
      · simp [ExpiredMap.step, Get_of_live em key now v hl hv]
      · simp [ExpiredMap.step, Get_of_expired em key now v hl (not_le.mp hv), running_Delete]
  | delete key => rfl
  | ttl key =>
    cases hl : em.m.lookup key with
    | none => simp [ExpiredMap.step, TTL_of_absent em key now hl]
    | some v =>
      by_cases hv : now ≤ v.expireAt
      · simp [ExpiredMap.step, TTL_of_live em key now v hl hv]
      · simp [ExpiredMap.step, TTL_of_expired em key now v hl (not_le.mp hv), running_Delete]
  | forEach => rw [step_forEach, running_tick]
  | tick =>
    rcases step_tick em now with h | h
    · rw [h, running_tick]
    · rw [h]

theorem running_run [Inhabited TV] :
    ∀ (tr : List (Op TK TV × Time)) (em : ExpiredMap TK TV),
      (em.run tr).running = em.running := by
  intro tr
  induction tr with
  | nil => intro em; rfl
  | cons e tr ih =>
    intro em
    show ((em.step e.1 e.2).run tr).running = _
    rw [ih, running_step]

theorem agree_step [Inhabited TV] (em : ExpiredMap TK TV) (op : Op TK TV) (now : Time)
    (hal : op.allowed em = true) (hag : em.len = (em.m.entries.length : Int)) :
    (em.step op now).len = ((em.step op now).m.entries.length : Int) := by
  cases op with
  | set key value ttl =>
    by_cases hc : em.capacity ≤ em.len
    · simpa [ExpiredMap.step, Set_of_full em key value ttl now hc] using hag
    · have hnot : key ∉ em.m := by
        apply AList.lookup_eq_none.mp
        simpa [Op.allowed] using hal
      simp only [ExpiredMap.step, Set_of_room em key value ttl now (not_le.mp hc)]
      rw [AList.insert_entries_of_neg hnot, hag]
      simp
  | get key =>
    cases hl : em.m.lookup key with
    | none => simpa [ExpiredMap.step, Get_of_absent em key now hl] using hag
    | some v =>
      by_cases hv : now ≤ v.expireAt
      · simpa [ExpiredMap.step, Get_of_live em key now v hl hv] using hag
      · simp only [ExpiredMap.step, Get_of_expired em key now v hl (not_le.mp hv)]
        apply agree_Delete_of_mem em key _ hag
        apply AList.lookup_isSome.mp
        simp [hl]
  | delete key =>
    apply agree_Delete_of_mem em key _ hag
    apply AList.lookup_isSome.mp
    simpa [Op.allowed] using hal
  | ttl key =>
    cases hl : em.m.lookup key with
    | none => simpa [ExpiredMap.step, TTL_of_absent em key now hl] using hag
    | some v =>
      by_cases hv : now ≤ v.expireAt
      · simpa [ExpiredMap.step, TTL_of_live em key now v hl hv] using hag
      · simp only [ExpiredMap.step, TTL_of_expired em key now v hl (not_le.mp hv)]
        apply agree_Delete_of_mem em key _ hag
        apply AList.lookup_isSome.mp
        simp [hl]
  | forEach =>
    rw [step_forEach]
    exact agree_tick em now hag
  | tick =>
    rcases step_tick em now with h | h
    · rw [h]
      exact agree_tick em now hag
    · rw [h]
      exact hag

theorem agree_run [Inhabited TV] :
    ∀ (tr : List (Op TK TV × Time)) (em : ExpiredMap TK TV),
      disciplined em tr = true → em.len = (em.m.entries.length : Int) →
      (em.run tr).len = ((em.run tr).m.entries.length : Int) := by
  intro tr
  induction tr with
  | nil => intro em _ h; exact h
  | cons e tr ih =>
    intro em hd hag
    simp only [disciplined, Bool.and_eq_true] at hd
    exact ih (em.step e.1 e.2) hd.2 (agree_step em e.1 e.2 hd.1 hag)

theorem Close_of_running (em : ExpiredMap TK TV) (h : em.running = true) :
    em.Close = some { em with
      m := eraseKeys em.m.entries.keys em.m
      len := em.len - (em.m.entries.length : Int)
      running := false } := by
  simp only [ExpiredMap.Close, h, if_true, Range_closeVisit]

/-- Claim C10, as the code has it.  From a freshly constructed map, after any sequence of `Set`,
`Get`, `Delete`, `TTL`, `HandleForeach` and ticks in which `Set` is only called on a key that is
not stored and `Delete` only on a key that is stored, `Close()` returns and `Size()` is 0 after
it. -/
theorem Close_size_zero_of_disciplined [Inhabited TV] (capacity : Int)
    (expireInterval : Duration) (tr : List (Op TK TV × Time))
    (hd : disciplined (NewExpiredMap capacity expireInterval : ExpiredMap TK TV) tr = true) :
    ∃ em2, ((NewExpiredMap capacity expireInterval : ExpiredMap TK TV).run tr).Close = some em2 ∧
      em2.Size = 0 := by
  have hrun : ((NewExpiredMap capacity expireInterval : ExpiredMap TK TV).run tr).running
      = true := by
    rw [running_run]
    rfl
  have hag := agree_run tr (NewExpiredMap capacity expireInterval : ExpiredMap TK TV) hd rfl
  refine ⟨_, Close_of_running _ hrun, ?_⟩
  show _ - _ = (0 : Int)
  rw [hag]
  exact sub_self _

/-- Claim C10 fails as stated.  On a fresh map, `Delete(1)` of a key that is not stored and then
`Close()` leaves `Size() = -1`; two `Set(1, ..)` in a row and then `Close()` leave
`Size() = 1`. -/
theorem Close_size_not_always_zero :
    ((exampleEmpty.run [(Op.delete 1, 100)]).Close).map ExpiredMap.Size = some (-1) ∧
    ((exampleEmpty.run [(Op.set 1 11 5, 100), (Op.set 1 12 5, 101)]).Close).map ExpiredMap.Size
      = some 1 := by
  decide

/-! ## Close -/

theorem entries_eraseKeys_all (m : AList (fun _ : TK => expiredMapItem TK TV)) :
    (eraseKeys m.entries.keys m).entries = [] := by
  rw [entries_eraseKeys]
  apply List.filter_eq_nil_iff.mpr
  intro x hx
  have : x.1 ∈ m.entries.keys := List.mem_keys_of_mem hx
  simp [this]

theorem running_of_Close (em em2 : ExpiredMap TK TV) (h : em.Close = some em2) :
    em.running = true := by
  by_contra hr
  simp [ExpiredMap.Close, hr] at h

/-- Claim C11.  `Close()` returns whenever the sweeper is running, and in the state it returns
the map is empty: no key is stored, so for every key `Get` returns not-found and `TTL` returns
-2 at any time; the counter is the counter before `Close` minus the number of entries that were
stored. -/
theorem Close_empties_map [Inhabited TV] (em : ExpiredMap TK TV) :
    (em.running = true → ∃ em2, em.Close = some em2) ∧
    (∀ em2, em.Close = some em2 →
      em2.m.entries = [] ∧
      (∀ k, em2.m.lookup k = none) ∧
      (∀ k t, (em2.Get k t).1 = (default, false)) ∧
      (∀ k t, (em2.TTL k t).1 = -2) ∧
      em2.Size = em.Size - (em.m.entries.length : Int)) := by
  refine ⟨fun hr => ⟨_, Close_of_running em hr⟩, ?_⟩
  intro em2 hc
  have hr := running_of_Close em em2 hc
  rw [Close_of_running em hr] at hc
  have heq := Option.some.inj hc
  subst heq
  have hent : (eraseKeys em.m.entries.keys em.m).entries = [] := entries_eraseKeys_all em.m
  have hlook : ∀ k, (eraseKeys em.m.entries.keys em.m).lookup k = none := by
    intro k
    apply AList.lookup_eq_none.mpr
    intro hk
    have hk2 : k ∈ (eraseKeys em.m.entries.keys em.m).entries.keys := hk
    rw [hent] at hk2
    cases hk2
  refine ⟨hent, hlook, fun k t => ?_, fun k t => ?_, rfl⟩
  · rw [Get_of_absent _ k t (hlook k)]
  · rw [TTL_of_absent _ k t (hlook k)]

/-! ## The capacity -/

theorem capacity_Delete (em : ExpiredMap TK TV) (k : TK) :
    (em.Delete k).capacity = em.capacity := rfl

theorem capacity_tick (em : ExpiredMap TK TV) (now : Time) :
    (em.tick now).capacity = em.capacity := by
  rw [tick_eq]

theorem len_tick_le (em : ExpiredMap TK TV) (now : Time) : (em.tick now).len ≤ em.len := by
  rw [tick_eq]
  show em.len - _ ≤ em.len
  omega

theorem len_Delete (em : ExpiredMap TK TV) (k : TK) : (em.Delete k).len = em.len - 1 := rfl

theorem step_cases [Inhabited TV] (em : ExpiredMap TK TV) (op : Op TK TV) (now : Time) :
    em.step op now = em ∨
    (∃ k, em.step op now = em.Delete k ∧ (k ∈ em.m ∨ op = Op.delete k)) ∨
    (∃ k v d, em.len < em.capacity ∧
      em.step op now = { em with m := em.m.insert k ⟨k, v, now + d⟩, len := em.len + 1 }) ∨
    em.step op now = em.tick now := by
  cases op with
  | set key value ttl =>
    by_cases hc : em.capacity ≤ em.len
    · left
      show (em.Set key value ttl now).2 = em
      rw [Set_of_full em key value ttl now hc]
    · right; right; left
      refine ⟨key, value, ttl, not_le.mp hc, ?_⟩
      show (em.Set key value ttl now).2 = _
      rw [Set_of_room em key value ttl now (not_le.mp hc)]
  | get key =>
    show (em.Get key now).2 = em ∨ (∃ k, (em.Get key now).2 = em.Delete k ∧ _) ∨ _
    cases hl : em.m.lookup key with
    | none =>
      left
      rw [Get_of_absent em key now hl]
    | some v =>
      by_cases hv : now ≤ v.expireAt
      · left
        rw [Get_of_live em key now v hl hv]
      · right; left
        refine ⟨key, ?_, Or.inl ?_⟩
        · rw [Get_of_expired em key now v hl (not_le.mp hv)]
        · apply AList.lookup_isSome.mp
          simp [hl]
  | delete key =>
    right; left
    exact ⟨key, rfl, Or.inr rfl⟩
  | ttl key =>
    show (em.TTL key now).2 = em ∨ (∃ k, (em.TTL key now).2 = em.Delete k ∧ _) ∨ _
    cases hl : em.m.lookup key with
    | none =>
      left
      rw [TTL_of_absent em key now hl]
    | some v =>
      by_cases hv : now ≤ v.expireAt
      · left
        rw [TTL_of_live em key now v hl hv]
      · right; left
        refine ⟨key, ?_, Or.inl ?_⟩
        · rw [TTL_of_expired em key now v hl (not_le.mp hv)]
        · apply AList.lookup_isSome.mp
          simp [hl]
  | forEach =>
    right; right; right
    exact step_forEach em now
  | tick =>
    rcases step_tick em now with h | h
    · right; right; right
      exact h
    · left
      exact h

theorem bounded_step [Inhabited TV] (em : ExpiredMap TK TV) (op : Op TK TV) (now : Time)
    (hb : em.len ≤ em.capacity) :
    (em.step op now).capacity = em.capacity ∧ (em.step op now).len ≤ em.capacity := by
  rcases step_cases em op now with h | ⟨k, h, _⟩ | ⟨k, v, d, hroom, h⟩ | h
  · rw [h]
    exact ⟨rfl, hb⟩
  · rw [h]
    refine ⟨rfl, ?_⟩
    rw [len_Delete]
    omega
  · rw [h]
    refine ⟨rfl, ?_⟩
    show em.len + 1 ≤ em.capacity
    omega
  · rw [h]
    exact ⟨capacity_tick em now, le_trans (len_tick_le em now) hb⟩

theorem bounded_run [Inhabited TV] :
    ∀ (tr : List (Op TK TV × Time)) (em : ExpiredMap TK TV), em.len ≤ em.capacity →
      (em.run tr).capacity = em.capacity ∧ (em.run tr).len ≤ em.capacity := by
  intro tr
  induction tr with
  | nil => intro em hb; exact ⟨rfl, hb⟩
  | cons e tr ih =>
    intro em hb
    obtain ⟨h1, h2⟩ := bounded_step em e.1 e.2 hb
    have h3 := ih (em.step e.1 e.2) (by rw [h1]; exact h2)
    rw [h1] at h3
    exact h3

/-- Claim C12.  For a map constructed with capacity `c > 0`, after any sequence of `Set`, `Get`,
`Delete`, `TTL`, `HandleForeach` and ticks, at any times, `Size()` is at most `c`. -/
theorem Size_le_capacity [Inhabited TV] (c : Int) (expireInterval : Duration)
    (tr : List (Op TK TV × Time)) (hc : 0 < c) :
    ((NewExpiredMap c expireInterval : ExpiredMap TK TV).run tr).Size ≤ c :=
  (bounded_run tr (NewExpiredMap c expireInterval : ExpiredMap TK TV) (le_of_lt hc)).2

/-! ## The counter as a bound on the stored entries -/

theorem length_insert_of_mem (m : AList (fun _ : TK => expiredMapItem TK TV)) (k : TK)
    (v : expiredMapItem TK TV) (h : k ∈ m) :
    ((m.insert k v).entries.length : Int) = (m.entries.length : Int) := by
  rw [AList.insert_entries, List.length_cons]
  have h1 : ((m.erase k).entries.length : Int) = (m.entries.length : Int) - 1 :=
    length_erase_of_mem m k h
  have h2 : (m.erase k).entries = m.entries.kerase k := rfl
  rw [h2] at h1
  push_cast
  omega

theorem length_insert_le (m : AList (fun _ : TK => expiredMapItem TK TV)) (k : TK)
    (v : expiredMapItem TK TV) :
    ((m.insert k v).entries.length : Int) ≤ (m.entries.length : Int) + 1 := by
  by_cases h : k ∈ m
  · rw [length_insert_of_mem m k v h]
    omega
  · rw [AList.insert_entries_of_neg h, List.length_cons]
    push_cast
    omega

theorem stored_le_step [Inhabited TV] (em : ExpiredMap TK TV) (op : Op TK TV) (now : Time)
    (hal : op.deletesStored em = true) (hle : (em.m.entries.length : Int) ≤ em.len) :
    ((em.step op now).m.entries.length : Int) ≤ (em.step op now).len := by
  rcases step_cases em op now with h | ⟨k, h, hk⟩ | ⟨k, v, d, _, h⟩ | h
  · rw [h]
    exact hle
  · rw [h]
    have hmem : k ∈ em.m := by
      rcases hk with hk | hk
      · exact hk
      · subst hk
        apply AList.lookup_isSome.mp
        simpa [Op.deletesStored] using hal
    show ((em.m.erase k).entries.length : Int) ≤ em.len - 1
    rw [length_erase_of_mem em.m k hmem]
    omega
  · rw [h]
    show ((em.m.insert k _).entries.length : Int) ≤ em.len + 1
    have := length_insert_le em.m k ⟨k, v, now + d⟩
    omega
  · rw [h, entries_tick, tick_eq]
    show _ ≤ em.len - _
    have := length_live_add_expired em now
    omega

theorem stored_le_run [Inhabited TV] :
    ∀ (tr : List (Op TK TV × Time)) (em : ExpiredMap TK TV),
      deleteDisciplined em tr = true → (em.m.entries.length : Int) ≤ em.len →
      ((em.run tr).m.entries.length : Int) ≤ (em.run tr).len := by
  intro tr
  induction tr with
  | nil => intro em _ h; exact h
  | cons e tr ih =>
    intro em hd hle
    simp only [deleteDisciplined, Bool.and_eq_true] at hd
    exact ih (em.step e.1 e.2) hd.2 (stored_le_step em e.1 e.2 hd.1 hle)

/-- Claim C13, as the code has it.  For a map constructed with capacity `c > 0`, after any
sequence of `Set`, `Get`, `Delete`, `TTL`, `HandleForeach` and ticks in which `Delete` is never
called on a key that is not stored, the number of entries stored in the map is at most `c`. -/
theorem stored_le_capacity_of_deleteDisciplined [Inhabited TV] (c : Int)
    (expireInterval : Duration) (tr : List (Op TK TV × Time)) (hc : 0 < c)
    (hd : deleteDisciplined (NewExpiredMap c expireInterval : ExpiredMap TK TV) tr = true) :
    (((NewExpiredMap c expireInterval : ExpiredMap TK TV).run tr).m.entries.length : Int)
      ≤ c := by
  have h1 := stored_le_run tr (NewExpiredMap c expireInterval : ExpiredMap TK TV) hd
    (le_refl _)
  have h2 := (bounded_run tr (NewExpiredMap c expireInterval : ExpiredMap TK TV)
    (le_of_lt hc)).2
  exact le_trans h1 h2

/-- Claim C13 fails as stated.  With capacity 1: `Set(1, ..)` fills the map, `Delete(2)` of a key
that is not stored lowers the counter to 0, and `Set(3, ..)` succeeds, so two entries are stored
while `Size()` is 1. -/
theorem stored_exceeds_capacity_after_stray_Delete :
    ((NewExpiredMap 1 1000000000 : ExpiredMap Nat Nat).run
      [(Op.set 1 11 50, 100), (Op.delete 2, 101), (Op.set 3 33 50, 102)]).m.entries.length = 2 ∧
    ((NewExpiredMap 1 1000000000 : ExpiredMap Nat Nat).run
      [(Op.set 1 11 50, 100), (Op.delete 2, 101), (Op.set 3 33 50, 102)]).capacity = 1 ∧
    ((NewExpiredMap 1 1000000000 : ExpiredMap Nat Nat).run
      [(Op.set 1 11 50, 100), (Op.delete 2, 101), (Op.set 3 33 50, 102)]).Size = 1 := by
  decide

/-- Claim C16.  From a freshly constructed map, after any sequence of operations in which `Set`
is only called on a key that is not stored and `Delete` only on a key that is stored (`Get`,
`TTL`, `HandleForeach` and ticks are free), `Size()` is the number of entries stored in the
map. -/
theorem Size_eq_stored_of_disciplined [Inhabited TV] (c : Int) (expireInterval : Duration)
    (tr : List (Op TK TV × Time))
    (hd : disciplined (NewExpiredMap c expireInterval : ExpiredMap TK TV) tr = true) :
    ((NewExpiredMap c expireInterval : ExpiredMap TK TV).run tr).Size =
      (((NewExpiredMap c expireInterval : ExpiredMap TK TV).run tr).m.entries.length : Int) :=
  agree_run tr (NewExpiredMap c expireInterval : ExpiredMap TK TV) hd rfl

/-- Claim C18.  When `Size() < capacity` and `key` is already stored, `Set(key, value, ttl)` at
`now` returns `true`, the entry of `key` becomes `value` with `expireAt = now + ttl`, every other
key keeps its entry, the number of stored entries is unchanged, and the counter still goes up by
one, so the excess of `Size()` over the number of stored entries grows by one. -/
theorem Set_overwrite_inflates_counter (em : ExpiredMap TK TV) (key : TK) (value : TV)
    (ttl : Duration) (now : Time) (old : expiredMapItem TK TV)
    (hroom : em.Size < em.capacity) (hstored : em.m.lookup key = some old) :
    (em.Set key value ttl now).1 = true ∧
    (em.Set key value ttl now).2.m.lookup key = some ⟨key, value, now + ttl⟩ ∧
    (∀ k2, k2 ≠ key → (em.Set key value ttl now).2.m.lookup k2 = em.m.lookup k2) ∧
    (em.Set key value ttl now).2.m.entries.length = em.m.entries.length ∧
    (em.Set key value ttl now).2.Size = em.Size + 1 ∧
    (em.Set key value ttl now).2.Size - ((em.Set key value ttl now).2.m.entries.length : Int) =
      em.Size - (em.m.entries.length : Int) + 1 := by
  have hmem : key ∈ em.m := by
    apply AList.lookup_isSome.mp
    simp [hstored]
  have hlen : ((em.m.insert key ⟨key, value, now + ttl⟩).entries.length : Int) =
      (em.m.entries.length : Int) := length_insert_of_mem em.m key _ hmem
  have hother := fun k2 (hk : k2 ≠ key) => lookup_Set_other em key k2 value ttl now hk
  rw [Set_of_room em key value ttl now hroom] at hother ⊢
  refine ⟨rfl, AList.lookup_insert _, hother, ?_, rfl, ?_⟩
  · exact Int.ofNat.inj hlen
  · show em.len + 1 - ((em.m.insert key _).entries.length : Int) = em.len - _ + 1
    rw [hlen]
    ring

/-- Claim C19.  From a freshly constructed map, after any sequence of operations in which
`Delete` is never called on a key that is not stored (`Set` may overwrite; `Get`, `TTL`,
`HandleForeach` and ticks are free), `Size()` is non-negative and at least the number of stored
entries, hence at least the number of entries that are live at any time `now`. -/
theorem Size_ge_stored_of_deleteDisciplined [Inhabited TV] (c : Int)
    (expireInterval : Duration) (tr : List (Op TK TV × Time))
    (hd : deleteDisciplined (NewExpiredMap c expireInterval : ExpiredMap TK TV) tr = true) :
    0 ≤ ((NewExpiredMap c expireInterval : ExpiredMap TK TV).run tr).Size ∧
    (((NewExpiredMap c expireInterval : ExpiredMap TK TV).run tr).m.entries.length : Int) ≤
      ((NewExpiredMap c expireInterval : ExpiredMap TK TV).run tr).Size ∧
    (∀ now,
      ((((NewExpiredMap c expireInterval : ExpiredMap TK TV).run tr).liveEntries now).length
        : Int) ≤ ((NewExpiredMap c expireInterval : ExpiredMap TK TV).run tr).Size) := by
  have h1 := stored_le_run tr (NewExpiredMap c expireInterval : ExpiredMap TK TV) hd
    (le_refl _)
  refine ⟨le_trans (Int.ofNat_nonneg _) h1, h1, fun now => ?_⟩
  have h2 := length_live_add_expired
    ((NewExpiredMap c expireInterval : ExpiredMap TK TV).run tr) now
  have h3 : ((NewExpiredMap c expireInterval : ExpiredMap TK TV).run tr).Size =
      ((NewExpiredMap c expireInterval : ExpiredMap TK TV).run tr).len := rfl
  rw [h3]
  omega

/-! ## Expiry seen through `TTL`, and non-positive ttl -/

theorem lookup_Set_self_of_success (em : ExpiredMap TK TV) (k : TK) (v : TV) (d : Duration)
    (t0 : Time) (hset : (em.Set k v d t0).1 = true) :
    (em.Set k v d t0).2.m.lookup k = some ⟨k, v, t0 + d⟩ := by
  have hroom : em.len < em.capacity := by
    by_contra hc
    rw [Set_of_full em k v d t0 (not_lt.mp hc)] at hset
    cases hset
  rw [Set_of_room em k v d t0 hroom]
  exact AList.lookup_insert _

theorem lookup_step_call_avoids [Inhabited TV] (em : ExpiredMap TK TV) (op : Op TK TV)
    (now : Time) (k : TK) (h : op.avoids k = true) (h1 : op ≠ Op.tick)
    (h2 : op ≠ Op.forEach) : (em.step op now).m.lookup k = em.m.lookup k := by
  cases op with
  | set key value ttl =>
    have hk : k ≠ key := fun e => by simp [Op.avoids, e] at h
    exact lookup_Set_other em key k value ttl now hk
  | get key =>
    have hk : k ≠ key := fun e => by simp [Op.avoids, e] at h
    exact lookup_Get_other em key k now hk
  | delete key =>
    have hk : k ≠ key := fun e => by simp [Op.avoids, e] at h
    exact lookup_Delete_other em key k hk
  | ttl key =>
    have hk : k ≠ key := fun e => by simp [Op.avoids, e] at h
    exact lookup_TTL_other em key k now hk
  | forEach => exact absurd rfl h2
  | tick => exact absurd rfl h1

theorem lookup_step_scan [Inhabited TV] (em : ExpiredMap TK TV) (op : Op TK TV) (now : Time)
    (k : TK) (hr : em.running = true) (hop : op = Op.tick ∨ op = Op.forEach) :
    (em.step op now).m.lookup k =
      (em.m.lookup k).filter (fun v => decide (now ≤ v.expireAt)) := by
  rcases hop with hop | hop
  · subst hop
    have : em.step Op.tick now = em.tick now := by simp [ExpiredMap.step, hr]
    rw [this]
    exact lookup_tick em now k
  · subst hop
    rw [step_forEach]
    exact lookup_tick em now k

theorem lookup_run_keeps_until_scan [Inhabited TV] (k : TK) (v : expiredMapItem TK TV) :
    ∀ (tr : List (Op TK TV × Time)) (em : ExpiredMap TK TV),
      (∀ e ∈ tr, e.1.avoids k = true) →
      (∀ e ∈ tr, e.1 = Op.tick ∨ e.1 = Op.forEach → e.2 ≤ v.expireAt) →
      em.m.lookup k = some v → (em.run tr).m.lookup k = some v := by
  intro tr
  induction tr with
  | nil => intro em _ _ h; exact h
  | cons e tr ih =>
    intro em hav hts h
    apply ih (em.step e.1 e.2) (fun x hx => hav x (List.mem_cons_of_mem _ hx))
      (fun x hx => hts x (List.mem_cons_of_mem _ hx))
    by_cases hscan : e.1 = Op.tick ∨ e.1 = Op.forEach
    · rcases lookup_step_avoids em e.1 e.2 k (hav e (List.mem_cons_self _ _)) with h1 | h1
      · rw [h1]; exact h
      · rw [h1, h]
        simp [Option.filter, hts e (List.mem_cons_self _ _) hscan]
    · rw [lookup_step_call_avoids em e.1 e.2 k (hav e (List.mem_cons_self _ _))
        (fun hh => hscan (Or.inl hh)) (fun hh => hscan (Or.inr hh))]
      exact h

theorem lookup_run_none [Inhabited TV] (k : TK) :
    ∀ (tr : List (Op TK TV × Time)) (em : ExpiredMap TK TV),
      (∀ e ∈ tr, e.1.avoids k = true) → em.m.lookup k = none →
      (em.run tr).m.lookup k = none := by
  intro tr
  induction tr with
  | nil => intro em _ h; exact h
  | cons e tr ih =>
    intro em hav h
    apply ih (em.step e.1 e.2) (fun x hx => hav x (List.mem_cons_of_mem _ hx))
    rcases lookup_step_avoids em e.1 e.2 k (hav e (List.mem_cons_self _ _)) with h1 | h1
    · rw [h1]; exact h
    · rw [h1, h]; rfl

theorem lookup_run_none_of_scan [Inhabited TV] (k : TK) (v : expiredMapItem TK TV)
    (op : Op TK TV) (τ : Time) (hop : op = Op.tick ∨ op = Op.forEach)
    (hexp : v.expireAt < τ) :
    ∀ (tr : List (Op TK TV × Time)) (em : ExpiredMap TK TV),
      (∀ e ∈ tr, e.1.avoids k = true) → em.running = true → (op, τ) ∈ tr →
      (em.m.lookup k = some v ∨ em.m.lookup k = none) →
      (em.run tr).m.lookup k = none := by
  intro tr
  induction tr with
  | nil => intro em _ _ hmem _; cases hmem
  | cons e tr ih =>
    intro em hav hr hmem h
    have hav2 : ∀ x ∈ tr, x.1.avoids k = true := fun x hx => hav x (List.mem_cons_of_mem _ hx)
    rcases List.mem_cons.mp hmem with he | hin
    · apply lookup_run_none k tr (em.step e.1 e.2) hav2
      rw [← he]
      show (em.step op τ).m.lookup k = none
      rw [lookup_step_scan em op τ k hr hop]
      rcases h with h | h
      · rw [h]
        simp [Option.filter, not_le.mpr hexp]
      · rw [h]; rfl
    · apply ih (em.step e.1 e.2) hav2 (by rw [running_step]; exact hr) hin
      rcases lookup_step_avoids em e.1 e.2 k (hav e (List.mem_cons_self _ _)) with h1 | h1
      · rw [h1]; exact h
      · rw [h1]
        rcases h with h | h
        · rw [h]
          by_cases hv : e.2 ≤ v.expireAt
          · left; simp [Option.filter, hv]
          · right; simp [Option.filter, hv]
        · rw [h]; right; rfl

/-- Claim C14, as the code has it.  Let `Set(k, v, d)` with `d ≤ 0` succeed at `t0`, and let it
be followed by ticks of the sweeper, `HandleForeach` calls and calls on other keys, at times that
do not decrease, and then by the next access to `k`, at `t ≥ t0`.  If `d < 0` or `t0 < t`, the
entry is expired at `t`: `Get(k)` returns not-found, and `TTL(k)` returns -1 or -2, namely -1
when no tick and no `HandleForeach` has run after `t0 + d` (so also when the access follows the
`Set` directly) and -2 when one has run on the running map, because the scan has removed the
entry.  If `d = 0` and the clock still reads `t0`, the entry is not expired yet: `Get(k)` returns
`(v, true)` and `TTL(k)` returns 0. -/
theorem Set_nonpositive_ttl_expires [Inhabited TV] (em : ExpiredMap TK TV) (k : TK) (v : TV)
    (d : Duration) (t0 : Time) (tr : List (Op TK TV × Time)) (t : Time) (hd : d ≤ 0)
    (hset : (em.Set k v d t0).1 = true)
    (hother : ∀ e ∈ tr, e.1.avoids k = true)
    (htimes : List.Sorted (fun a b : Time => a ≤ b) (t0 :: (tr.map Prod.snd ++ [t]))) :
    (d < 0 ∨ t0 < t →
      (((em.Set k v d t0).2.run tr).Get k t).1 = (default, false) ∧
      ((((em.Set k v d t0).2.run tr).TTL k t).1 = -1 ∨
        (((em.Set k v d t0).2.run tr).TTL k t).1 = -2) ∧
      ((∀ e ∈ tr, e.1 = Op.tick ∨ e.1 = Op.forEach → e.2 ≤ t0 + d) →
        (((em.Set k v d t0).2.run tr).TTL k t).1 = -1) ∧
      (em.running = true → ∀ op τ, (op, τ) ∈ tr → op = Op.tick ∨ op = Op.forEach →
        t0 + d < τ → (((em.Set k v d t0).2.run tr).TTL k t).1 = -2)) ∧
    (d = 0 ∧ t = t0 →
      (((em.Set k v d t0).2.run tr).Get k t).1 = (v, true) ∧
      (((em.Set k v d t0).2.run tr).TTL k t).1 = 0) := by
  have hstored := lookup_Set_self_of_success em k v d t0 hset
  have hpair := List.pairwise_cons.mp htimes
  have ht : t0 ≤ t := hpair.1 t (List.mem_append_right _ (List.mem_singleton_self t))
  have hle : ∀ e ∈ tr, e.2 ≤ t := by
    intro e he
    exact (List.pairwise_append.mp hpair.2).2.2 e.2 (List.mem_map_of_mem _ he) t
      (List.mem_singleton_self t)
  have hcases := lookup_run_some_or_none k ⟨k, v, t0 + d⟩ tr (em.Set k v d t0).2 hother
    (Or.inl hstored)
  constructor
  · intro hs
    have hexp : t0 + d < t := by
      rcases hs with hs | hs
      · exact lt_of_lt_of_le (add_lt_of_neg_right t0 hs) ht
      · exact lt_of_le_of_lt (add_le_of_nonpos_right hd) hs
    refine ⟨?_, ?_, ?_, ?_⟩
    · rcases hcases with h | h
      · rw [Get_of_expired _ k t _ h hexp]
      · rw [Get_of_absent _ k t h]
    · rcases hcases with h | h
      · left; rw [TTL_of_expired _ k t _ h hexp]
      · right; rw [TTL_of_absent _ k t h]
    · intro hts
      have h := lookup_run_keeps_until_scan k ⟨k, v, t0 + d⟩ tr (em.Set k v d t0).2 hother
        hts hstored
      rw [TTL_of_expired _ k t _ h hexp]
    · intro hrun op τ hmem hop hτ
      have hrun2 : (em.Set k v d t0).2.running = true := by
        have := running_step em (Op.set k v d) t0
        rw [← hrun, ← this]
        rfl
      have h := lookup_run_none_of_scan k ⟨k, v, t0 + d⟩ op τ hop hτ tr (em.Set k v d t0).2
        hother hrun2 hmem (Or.inl hstored)
      rw [TTL_of_absent _ k t h]
  · rintro ⟨h0, h1⟩
    have hlive : t ≤ t0 + d := by
      rw [h0, h1, add_zero]
    have hkeep := lookup_run_keeps_live k ⟨k, v, t0 + d⟩ tr (em.Set k v d t0).2 hother
      (fun e he => le_trans (hle e he) hlive) hstored
    rw [Get_of_live _ k t _ hkeep hlive, TTL_of_live _ k t _ hkeep hlive]
    refine ⟨rfl, ?_⟩
    show t0 + d - t = 0
    rw [h0, h1, add_zero, sub_self]

/-- Claim C14 fails as stated.  `Set(1, 11, -5)` succeeds at time 100 on the empty map; the
sweeper ticks at 101 and removes the entry, and `TTL(1)` at 102 returns -2, not -1.  And
`Set(1, 11, 0)` succeeds at time 100; a `Get(1)` at the same clock reading returns `(11, true)`
and `TTL(1)` returns 0. -/
theorem Set_nonpositive_ttl_not_always_minus_one :
    ((exampleEmpty.Set 1 11 (-5) 100).1 = true ∧
      (((exampleEmpty.Set 1 11 (-5) 100).2.run [(Op.tick, 101)]).TTL 1 102).1 = -2) ∧
    ((exampleEmpty.Set 1 11 0 100).1 = true ∧
      ((exampleEmpty.Set 1 11 0 100).2.Get 1 100).1 = (11, true) ∧
      ((exampleEmpty.Set 1 11 0 100).2.TTL 1 100).1 = 0) := by
  decide

/-- Claim C15, as the code has it.  Let `Set(k, v, d)` succeed at `t0` on a running map and let
it be followed by ticks, `HandleForeach` calls and calls on other keys, and then by `TTL(k)` at
`t > t0 + d`.  `TTL(k)` returns -1 or -2, and a `Get(k)` after it, at any time, returns
not-found.  It returns -1 when no tick and no `HandleForeach` has run after `t0 + d`, and -2 when
one has: the scan has already removed the entry. -/
theorem TTL_after_expiry_is_sentinel [Inhabited TV] (em : ExpiredMap TK TV) (k : TK) (v : TV)
    (d : Duration) (t0 : Time) (tr : List (Op TK TV × Time)) (t : Time)
    (hrun : em.running = true)
    (hset : (em.Set k v d t0).1 = true)
    (hother : ∀ e ∈ tr, e.1.avoids k = true)
    (hgt : t0 + d < t) :
    ((((em.Set k v d t0).2.run tr).TTL k t).1 = -1 ∨
      (((em.Set k v d t0).2.run tr).TTL k t).1 = -2) ∧
    (∀ t2, ((((em.Set k v d t0).2.run tr).TTL k t).2.Get k t2).1 = (default, false)) ∧
    ((∀ e ∈ tr, e.1 = Op.tick ∨ e.1 = Op.forEach → e.2 ≤ t0 + d) →
      (((em.Set k v d t0).2.run tr).TTL k t).1 = -1) ∧
    (∀ op τ, (op, τ) ∈ tr → op = Op.tick ∨ op = Op.forEach → t0 + d < τ →
      (((em.Set k v d t0).2.run tr).TTL k t).1 = -2) := by
  have hstored := lookup_Set_self_of_success em k v d t0 hset
  have hrun2 : (em.Set k v d t0).2.running = true := by
    have := running_step em (Op.set k v d) t0
    rw [← hrun, ← this]
    rfl
  have hcases := lookup_run_some_or_none k ⟨k, v, t0 + d⟩ tr (em.Set k v d t0).2 hother
    (Or.inl hstored)
  refine ⟨?_, ?_, ?_, ?_⟩
  · rcases hcases with h | h
    · left; rw [TTL_of_expired _ k t _ h hgt]
    · right; rw [TTL_of_absent _ k t h]
  · intro t2
    rcases hcases with h | h
    · rw [TTL_of_expired _ k t _ h hgt, Get_of_absent _ k t2 (lookup_Delete_self _ k)]
    · rw [TTL_of_absent _ k t h, Get_of_absent _ k t2 h]
  · intro hts
    have h := lookup_run_keeps_until_scan k ⟨k, v, t0 + d⟩ tr (em.Set k v d t0).2 hother hts
      hstored
    rw [TTL_of_expired _ k t _ h hgt]
  · intro op τ hmem hop hτ
    have h := lookup_run_none_of_scan k ⟨k, v, t0 + d⟩ op τ hop hτ tr (em.Set k v d t0).2
      hother hrun2 hmem (Or.inl hstored)
    rw [TTL_of_absent _ k t h]

/-- Claim C15 fails as stated.  `Set(1, 11, 3)` succeeds at time 0 on the empty map; the sweeper
ticks at 4 and removes the entry; `TTL(1)` at 6 returns -2, not -1. -/
theorem TTL_after_sweep_is_absent :
    (exampleEmpty.Set 1 11 3 0).1 = true ∧
    (((exampleEmpty.Set 1 11 3 0).2.run [(Op.tick, 4)]).TTL 1 6).1 = -2 := by
  decide

/-! ## Calls on one key and the entries of the others -/

theorem Get_fst_of_lookup_eq [Inhabited TV] (a b : ExpiredMap TK TV) (k : TK) (t : Time)
    (h : a.m.lookup k = b.m.lookup k) : (a.Get k t).1 = (b.Get k t).1 := by
  simp only [ExpiredMap.Get, h]
  cases b.m.lookup k with
  | none => rfl
  | some v => by_cases hv : t > v.expireAt <;> simp [hv]

theorem TTL_fst_of_lookup_eq (a b : ExpiredMap TK TV) (k : TK) (t : Time)
    (h : a.m.lookup k = b.m.lookup k) : (a.TTL k t).1 = (b.TTL k t).1 := by
  simp only [ExpiredMap.TTL, h]
  cases b.m.lookup k with
  | none => rfl
  | some v => by_cases hv : t > v.expireAt <;> simp [hv]

theorem frame_of_lookup_eq [Inhabited TV] (a b : ExpiredMap TK TV) (k : TK)
    (h : a.m.lookup k = b.m.lookup k) :
    a.m.lookup k = b.m.lookup k ∧
      ∀ t, (a.Get k t).1 = (b.Get k t).1 ∧ (a.TTL k t).1 = (b.TTL k t).1 :=
  ⟨h, fun t => ⟨Get_fst_of_lookup_eq a b k t h, TTL_fst_of_lookup_eq a b k t h⟩⟩

/-- Claim C20.  For distinct keys `k` and `k2`, each of `Set(k, ..)`, `Get(k)`, `TTL(k)` and
`Delete(k)` leaves the entry of `k2` as it was (stored or not, same value, same `expireAt`), so
`Get(k2)` and `TTL(k2)` at any time `t` return after the call what they return before it. -/
theorem calls_on_other_key_frame [Inhabited TV] (em : ExpiredMap TK TV) (k k2 : TK)
    (hne : k ≠ k2) (value : TV) (ttl : Duration) (now : Time) :
    ((em.Set k value ttl now).2.m.lookup k2 = em.m.lookup k2 ∧
      ∀ t, ((em.Set k value ttl now).2.Get k2 t).1 = (em.Get k2 t).1 ∧
        ((em.Set k value ttl now).2.TTL k2 t).1 = (em.TTL k2 t).1) ∧
    ((em.Get k now).2.m.lookup k2 = em.m.lookup k2 ∧
      ∀ t, ((em.Get k now).2.Get k2 t).1 = (em.Get k2 t).1 ∧
        ((em.Get k now).2.TTL k2 t).1 = (em.TTL k2 t).1) ∧
    ((em.TTL k now).2.m.lookup k2 = em.m.lookup k2 ∧
      ∀ t, ((em.TTL k now).2.Get k2 t).1 = (em.Get k2 t).1 ∧
        ((em.TTL k now).2.TTL k2 t).1 = (em.TTL k2 t).1) ∧
    ((em.Delete k).m.lookup k2 = em.m.lookup k2 ∧
      ∀ t, ((em.Delete k).Get k2 t).1 = (em.Get k2 t).1 ∧
        ((em.Delete k).TTL k2 t).1 = (em.TTL k2 t).1) :=
  ⟨frame_of_lookup_eq _ em k2 (lookup_Set_other em k k2 value ttl now (Ne.symm hne)),
    frame_of_lookup_eq _ em k2 (lookup_Get_other em k k2 now (Ne.symm hne)),
    frame_of_lookup_eq _ em k2 (lookup_TTL_other em k k2 now (Ne.symm hne)),
    frame_of_lookup_eq _ em k2 (lookup_Delete_other em k k2 (Ne.symm hne))⟩

/-! ## The claims at concrete maps -/

/-- The full map `exampleFull` rejects `Set(3, 33, 5)` and stays as it is. -/
theorem Set_false_iff_at_capacity_witness :
    exampleFull.Size ≥ exampleFull.capacity ∧ (exampleFull.Set 3 33 5 102).1 = false ∧
      (exampleFull.Set 3 33 5 102).2 = exampleFull :=
  ⟨by decide, by decide, (Set_false_iff_at_capacity exampleFull 3 33 5 102).2 (by decide)⟩

/-- In `exampleFull` key 1 expires at 105; `Get(1)` at 106 evicts it. -/
theorem Get_expired_evicts_witness :
    (exampleFull.m.lookup 1 = some ⟨1, 11, 105⟩ ∧ (105 : Time) < 106) ∧
      (exampleFull.Get 1 106).1 = (0, false) ∧ (exampleFull.Get 1 106).2.Size = 2 - 1 :=
  have h := Get_expired_evicts exampleFull 1 106 ⟨1, 11, 105⟩ (by decide) (by decide)
  ⟨⟨by decide, by decide⟩, h.1, h.2.2.2.1⟩

/-- In `exampleFull` key 1 expires at 105; `Get(1)` at 105 still returns 11. -/
theorem Get_live_returns_value_witness :
    (exampleFull.m.lookup 1 = some ⟨1, 11, 105⟩ ∧ (105 : Time) ≤ 105) ∧
      (exampleFull.Get 1 105).1 = (11, true) ∧ (exampleFull.Get 1 105).2 = exampleFull :=
  have h := Get_live_returns_value exampleFull 1 105 ⟨1, 11, 105⟩ (by decide) (by decide)
  ⟨⟨by decide, by decide⟩, h.1, h.2.1⟩

/-- Key 7 is not stored in `exampleFull`; after `Get(1)` at 106 evicted key 1, three more `Get(1)`
leave the counter at 1. -/
theorem Get_absent_is_noop_witness :
    (exampleFull.m.lookup 7 = none ∧ exampleFull.Get 7 100 = ((0, false), exampleFull)) ∧
    (exampleFull.m.lookup 1 = some ⟨1, 11, 105⟩ ∧ (105 : Time) < 106 ∧
      ([107, 108, 200].foldl (fun st t => (st.Get 1 t).2) (exampleFull.Get 1 106).2).Size
        = exampleFull.Size - 1) :=
  ⟨⟨by decide, (Get_absent_is_noop exampleFull 7).1 100 (by decide)⟩,
    by decide, by decide,
    ((Get_absent_is_noop exampleFull 1).2 106 ⟨1, 11, 105⟩ (by decide) (by decide)).2.2
      [107, 108, 200]⟩

/-- The three cases of `TTL` on `exampleFull`: key 7 is absent, key 1 is expired at 106, key 2
has 45 left at 106. -/
theorem TTL_cases_witness :
    (exampleFull.m.lookup 7 = none ∧ exampleFull.TTL 7 106 = (-2, exampleFull)) ∧
    (exampleFull.m.lookup 1 = some ⟨1, 11, 105⟩ ∧ (105 : Time) < 106 ∧
      (exampleFull.TTL 1 106).1 = -1) ∧
    (exampleFull.m.lookup 2 = some ⟨2, 22, 151⟩ ∧ (106 : Time) ≤ 151 ∧
      exampleFull.TTL 2 106 = (151 - 106, exampleFull)) :=
  ⟨⟨by decide, (TTL_cases exampleFull 7 106).1 (by decide)⟩,
    ⟨by decide, by decide,
      ((TTL_cases exampleFull 1 106).2.1 ⟨1, 11, 105⟩ (by decide) (by decide)).1⟩,
    ⟨by decide, by decide,
      ((TTL_cases exampleFull 2 106).2.2.1 ⟨2, 22, 151⟩ (by decide) (by decide)).1⟩⟩

/-- The map `exampleFull` is at capacity; after `Delete(7)`, of a key that is not stored,
`Set(3, 33, 5)` succeeds. -/
theorem Delete_effect_witness :
    exampleFull.Size = exampleFull.capacity ∧
      ((exampleFull.Delete 7).Set 3 33 5 102).1 = true :=
  ⟨by decide, (Delete_effect exampleFull 7).2.2.2.2.2 (by decide) 3 33 5 102⟩

/-- On the empty map `Set(1, 11, 5)` succeeds at 100.  After a tick, a `Set` and a `Get` of key 2
and a `HandleForeach`, `Get(1)` at 104 returns `(11, true)`; after ticks at 103 and 106, `Get(1)`
at 107 returns not-found. -/
theorem Get_after_Set_respects_ttl_witness :
    (exampleEmpty.Set 1 11 5 100).1 = true ∧
    ((104 : Time) < 100 + 5 ∧
      (((exampleEmpty.Set 1 11 5 100).2.run
        [(Op.tick, 101), (Op.set 2 22 50, 102), (Op.get 2, 103), (Op.forEach, 104)]).Get 1
          104).1 = (11, true)) ∧
    ((100 : Time) + 5 < 107 ∧
      (((exampleEmpty.Set 1 11 5 100).2.run [(Op.tick, 103), (Op.tick, 106)]).Get 1 107).1
        = (0, false)) :=
  ⟨by decide,
    ⟨by decide,
      (Get_after_Set_respects_ttl exampleEmpty 1 11 5 100
        [(Op.tick, 101), (Op.set 2 22 50, 102), (Op.get 2, 103), (Op.forEach, 104)] 104
        (by decide) (by decide) (by decide)).1 (by decide)⟩,
    ⟨by decide,
      (Get_after_Set_respects_ttl exampleEmpty 1 11 5 100 [(Op.tick, 103), (Op.tick, 106)] 107
        (by decide) (by decide) (by decide)).2 (by decide)⟩⟩

/-- A scan of `exampleFull` that visits key 2 at 104 and key 1 at 106, with a logging callback
that does not call the map: key 1 is expired when visited, the callback is called once, with
`(2, 22)`, and the counter goes from 2 to 1. -/
theorem HandleForeach_calls_live_when_visited_witness :
    (exampleFull.liveWhenVisited (fun k => if k = 2 then 104 else 106)).map
        (fun e => (e.1, e.2.value)) = [(2, 22)] ∧
    (exampleFull.HandleForeach (fun k => if k = 2 then 104 else 106)
        (observer fun k v (log : List (Nat × Nat)) => log ++ [(k, v)]) []).2 =
      (exampleFull.liveWhenVisited (fun k => if k = 2 then 104 else 106)).map
        (fun e => (e.1, e.2.value)) ∧
    (exampleFull.expiredWhenVisited (fun k => if k = 2 then 104 else 106)).length = 1 ∧
    (exampleFull.HandleForeach (fun k => if k = 2 then 104 else 106)
        (observer fun k v (log : List (Nat × Nat)) => log ++ [(k, v)]) []).1.Size =
      exampleFull.Size -
        ((exampleFull.expiredWhenVisited (fun k => if k = 2 then 104 else 106)).length : Int) ∧
    ((∀ k : Nat, (fun _ : Nat => (106 : Time)) k = 106) ∧
      exampleFull.liveWhenVisited (fun _ => 106) = exampleFull.liveEntries 106) :=
  have h := HandleForeach_calls_live_when_visited exampleFull (fun k => if k = 2 then 104 else 106)
    (fun k v (log : List (Nat × Nat)) => log ++ [(k, v)]) []
  ⟨by decide, h.2.1, by decide, h.2.2.2.2.2.2.1,
    fun _ => rfl,
    ((HandleForeach_calls_live_when_visited exampleFull (fun _ => 106)
      (fun k v (log : List (Nat × Nat)) => log ++ [(k, v)]) []).2.2.2.2.2.2.2.2 106
        (fun _ => rfl)).1⟩

/-- A tick at 106 on `exampleFull` removes key 1 (expired at 105), keeps key 2 (live until 151)
and lowers the counter by one. -/
theorem tick_removes_exactly_expired_witness :
    (exampleFull.m.lookup 1 = some ⟨1, 11, 105⟩ ∧ (105 : Time) < 106 ∧
      (exampleFull.tick 106).m.lookup 1 = none) ∧
    (exampleFull.m.lookup 2 = some ⟨2, 22, 151⟩ ∧ (106 : Time) ≤ 151 ∧
      (exampleFull.tick 106).m.lookup 2 = some ⟨2, 22, 151⟩) ∧
    ((exampleFull.expiredEntries 106).length = 1 ∧
      (exampleFull.tick 106).Size =
        exampleFull.Size - ((exampleFull.expiredEntries 106).length : Int)) :=
  have h := tick_removes_exactly_expired exampleFull 106
  ⟨⟨by decide, by decide, h.2.1 1 ⟨1, 11, 105⟩ (by decide) (by decide)⟩,
    ⟨by decide, by decide, h.2.2.1 2 ⟨2, 22, 151⟩ (by decide) (by decide)⟩,
    ⟨by decide, h.2.2.2.2.2.1⟩⟩

/-- A sequence that keeps the calling discipline on a fresh map of capacity 2, ending with key 1
still stored: `Close()` returns and `Size()` is 0. -/
theorem Close_size_zero_of_disciplined_witness :
    disciplined (NewExpiredMap 2 1000000000 : ExpiredMap Nat Nat)
        [(Op.set 1 11 50, 100), (Op.get 1, 101), (Op.set 2 22 5, 102), (Op.delete 2, 103),
          (Op.tick, 110), (Op.ttl 1, 111), (Op.forEach, 112)] = true ∧
    ∃ em2, ((NewExpiredMap 2 1000000000 : ExpiredMap Nat Nat).run
        [(Op.set 1 11 50, 100), (Op.get 1, 101), (Op.set 2 22 5, 102), (Op.delete 2, 103),
          (Op.tick, 110), (Op.ttl 1, 111), (Op.forEach, 112)]).Close = some em2 ∧
      em2.Size = 0 :=
  ⟨by decide,
    Close_size_zero_of_disciplined 2 1000000000
      [(Op.set 1 11 50, 100), (Op.get 1, 101), (Op.set 2 22 5, 102), (Op.delete 2, 103),
        (Op.tick, 110), (Op.ttl 1, 111), (Op.forEach, 112)] (by decide)⟩

/-- The running map `exampleFull` holds two entries and its counter is 2: `Close()` returns a
state with no entries and counter 0. -/
theorem Close_empties_map_witness :
    exampleFull.running = true ∧ exampleFull.Size = 2 ∧ exampleFull.m.entries.length = 2 ∧
    (∃ em2, exampleFull.Close = some em2) ∧
    (∀ em2, exampleFull.Close = some em2 →
      em2.m.entries = [] ∧ em2.Size = exampleFull.Size - (exampleFull.m.entries.length : Int)) :=
  ⟨by decide, by decide, by decide, (Close_empties_map exampleFull).1 (by decide),
    fun em2 h => ⟨((Close_empties_map exampleFull).2 em2 h).1,
      ((Close_empties_map exampleFull).2 em2 h).2.2.2.2⟩⟩

/-- With capacity 2, three `Set`s on distinct keys and a stray `Delete` leave `Size()` at most
2. -/
theorem Size_le_capacity_witness :
    (0 : Int) < 2 ∧
    ((NewExpiredMap 2 1000000000 : ExpiredMap Nat Nat).run
      [(Op.set 1 11 50, 100), (Op.set 2 22 50, 101), (Op.set 3 33 50, 102),
        (Op.delete 9, 103), (Op.set 4 44 50, 104)]).Size ≤ 2 :=
  ⟨by decide, Size_le_capacity 2 1000000000
    [(Op.set 1 11 50, 100), (Op.set 2 22 50, 101), (Op.set 3 33 50, 102),
      (Op.delete 9, 103), (Op.set 4 44 50, 104)] (by decide)⟩

/-- With capacity 2, a `Set`, an overwriting `Set` of the same key, a `Delete` of the stored key
and a `Set` of a new key keep the number of stored entries at most 2. -/
theorem stored_le_capacity_of_deleteDisciplined_witness :
    (0 : Int) < 2 ∧
    deleteDisciplined (NewExpiredMap 2 1000000000 : ExpiredMap Nat Nat)
      [(Op.set 1 11 50, 100), (Op.set 1 12 50, 101), (Op.delete 1, 102),
        (Op.set 3 33 50, 103)] = true ∧
    (((NewExpiredMap 2 1000000000 : ExpiredMap Nat Nat).run
      [(Op.set 1 11 50, 100), (Op.set 1 12 50, 101), (Op.delete 1, 102),
        (Op.set 3 33 50, 103)]).m.entries.length : Int) ≤ 2 :=
  ⟨by decide, by decide,
    stored_le_capacity_of_deleteDisciplined 2 1000000000
      [(Op.set 1 11 50, 100), (Op.set 1 12 50, 101), (Op.delete 1, 102),
        (Op.set 3 33 50, 103)] (by decide) (by decide)⟩

/-- `Set(1, 11, -5)` succeeds at 100 on the empty map.  Accessed directly at the same clock
reading, `Get(1)` returns not-found and `TTL(1)` returns -1; after a tick at 101, `Get(1)` at 102
returns not-found and `TTL(1)` returns -2. -/
theorem Set_nonpositive_ttl_expires_witness :
    ((-5 : Duration) ≤ 0 ∧ (exampleEmpty.Set 1 11 (-5) 100).1 = true) ∧
    (((exampleEmpty.Set 1 11 (-5) 100).2.run []).Get 1 100).1 = (0, false) ∧
    (((exampleEmpty.Set 1 11 (-5) 100).2.run []).TTL 1 100).1 = -1 ∧
    (((exampleEmpty.Set 1 11 (-5) 100).2.run [(Op.tick, 101)]).Get 1 102).1 = (0, false) ∧
    (((exampleEmpty.Set 1 11 (-5) 100).2.run [(Op.tick, 101)]).TTL 1 102).1 = -2 :=
  have h1 := (Set_nonpositive_ttl_expires exampleEmpty 1 11 (-5) 100 [] 100 (by decide)
    (by decide) (by decide) (by decide)).1 (Or.inl (by decide))
  have h2 := (Set_nonpositive_ttl_expires exampleEmpty 1 11 (-5) 100 [(Op.tick, 101)] 102
    (by decide) (by decide) (by decide) (by decide)).1 (Or.inl (by decide))
  ⟨⟨by decide, by decide⟩, h1.1, h1.2.2.1 (by decide), h2.1,
    h2.2.2.2 (by decide) Op.tick 101 (by decide) (Or.inl rfl) (by decide)⟩

/-- `Set(1, 11, 3)` succeeds at 0 on the running empty map.  With a tick at 2 only, `TTL(1)` at
6 returns -1; with a further tick at 4 it returns -2. -/
theorem TTL_after_expiry_is_sentinel_witness :
    (exampleEmpty.running = true ∧ (exampleEmpty.Set 1 11 3 0).1 = true ∧
      (0 : Time) + 3 < 6) ∧
    (((exampleEmpty.Set 1 11 3 0).2.run [(Op.tick, 2)]).TTL 1 6).1 = -1 ∧
    (((exampleEmpty.Set 1 11 3 0).2.run [(Op.tick, 2), (Op.tick, 4)]).TTL 1 6).1 = -2 ∧
    (∀ t2, ((((exampleEmpty.Set 1 11 3 0).2.run [(Op.tick, 2), (Op.tick, 4)]).TTL 1 6).2.Get 1
      t2).1 = (0, false)) :=
  ⟨⟨by decide, by decide, by decide⟩,
    (TTL_after_expiry_is_sentinel exampleEmpty 1 11 3 0 [(Op.tick, 2)] 6 (by decide)
      (by decide) (by decide) (by decide)).2.2.1 (by decide),
    (TTL_after_expiry_is_sentinel exampleEmpty 1 11 3 0 [(Op.tick, 2), (Op.tick, 4)] 6
      (by decide) (by decide) (by decide) (by decide)).2.2.2 Op.tick 4 (by decide)
      (Or.inl rfl) (by decide),
    (TTL_after_expiry_is_sentinel exampleEmpty 1 11 3 0 [(Op.tick, 2), (Op.tick, 4)] 6
      (by decide) (by decide) (by decide) (by decide)).2.1⟩

/-- A sequence that keeps the calling discipline on a fresh map of capacity 2: `Size()` equals
the number of stored entries. -/
theorem Size_eq_stored_of_disciplined_witness :
    disciplined (NewExpiredMap 2 1000000000 : ExpiredMap Nat Nat)
      [(Op.set 1 11 50, 100), (Op.set 2 22 5, 102), (Op.delete 2, 103), (Op.tick, 110),
        (Op.get 1, 200)] = true ∧
    ((NewExpiredMap 2 1000000000 : ExpiredMap Nat Nat).run
      [(Op.set 1 11 50, 100), (Op.set 2 22 5, 102), (Op.delete 2, 103), (Op.tick, 110),
        (Op.get 1, 200)]).Size =
      (((NewExpiredMap 2 1000000000 : ExpiredMap Nat Nat).run
        [(Op.set 1 11 50, 100), (Op.set 2 22 5, 102), (Op.delete 2, 103), (Op.tick, 110),
          (Op.get 1, 200)]).m.entries.length : Int) :=
  ⟨by decide,
    Size_eq_stored_of_disciplined 2 1000000000
      [(Op.set 1 11 50, 100), (Op.set 2 22 5, 102), (Op.delete 2, 103), (Op.tick, 110),
        (Op.get 1, 200)] (by decide)⟩

/-- After `Set(1, 11, 5)` at 100 the empty map of capacity 2 has room and stores key 1;
`Set(1, 12, 7)` at 101 overwrites it and the counter goes from 1 to 2 with one entry stored. -/
theorem Set_overwrite_inflates_counter_witness :
    ((exampleEmpty.Set 1 11 5 100).2.Size < (exampleEmpty.Set 1 11 5 100).2.capacity ∧
      (exampleEmpty.Set 1 11 5 100).2.m.lookup 1 = some ⟨1, 11, 105⟩) ∧
    ((exampleEmpty.Set 1 11 5 100).2.Set 1 12 7 101).1 = true ∧
    ((exampleEmpty.Set 1 11 5 100).2.Set 1 12 7 101).2.m.lookup 1 = some ⟨1, 12, 101 + 7⟩ ∧
    ((exampleEmpty.Set 1 11 5 100).2.Set 1 12 7 101).2.Size =
      (exampleEmpty.Set 1 11 5 100).2.Size + 1 :=
  have h := Set_overwrite_inflates_counter (exampleEmpty.Set 1 11 5 100).2 1 12 7 101
    ⟨1, 11, 105⟩ (by decide) (by decide)
  ⟨⟨by decide, by decide⟩, h.1, h.2.1, h.2.2.2.2.1⟩

/-- A sequence with an overwriting `Set` and no stray `Delete`: `Size()` is non-negative and at
least the number of stored entries. -/
theorem Size_ge_stored_of_deleteDisciplined_witness :
    deleteDisciplined (NewExpiredMap 3 1000000000 : ExpiredMap Nat Nat)
      [(Op.set 1 11 50, 100), (Op.set 1 12 50, 101), (Op.set 2 22 5, 102),
        (Op.delete 2, 103)] = true ∧
    0 ≤ ((NewExpiredMap 3 1000000000 : ExpiredMap Nat Nat).run
      [(Op.set 1 11 50, 100), (Op.set 1 12 50, 101), (Op.set 2 22 5, 102),
        (Op.delete 2, 103)]).Size ∧
    (((NewExpiredMap 3 1000000000 : ExpiredMap Nat Nat).run
      [(Op.set 1 11 50, 100), (Op.set 1 12 50, 101), (Op.set 2 22 5, 102),
        (Op.delete 2, 103)]).m.entries.length : Int) ≤
      ((NewExpiredMap 3 1000000000 : ExpiredMap Nat Nat).run
        [(Op.set 1 11 50, 100), (Op.set 1 12 50, 101), (Op.set 2 22 5, 102),
          (Op.delete 2, 103)]).Size :=
  have h := Size_ge_stored_of_deleteDisciplined 3 1000000000
    [(Op.set 1 11 50, 100), (Op.set 1 12 50, 101), (Op.set 2 22 5, 102),
      (Op.delete 2, 103)] (by decide)
  ⟨by decide, h.1, h.2.1⟩

/-- In `exampleFull`, a `Delete(1)` or an evicting `Get(1)` at 106 leaves what `Get(2)` and
`TTL(2)` return at 120 as it was. -/
theorem calls_on_other_key_frame_witness :
    (1 : Nat) ≠ 2 ∧
    ((exampleFull.Delete 1).Get 2 120).1 = (exampleFull.Get 2 120).1 ∧
    ((exampleFull.Get 1 106).2.TTL 2 120).1 = (exampleFull.TTL 2 120).1 :=
  have h := calls_on_other_key_frame exampleFull 1 2 (by decide) 0 0 106
  ⟨by decide, (h.2.2.2.2 120).1, (h.2.1.2 120).2⟩

end expiredmap
